import Mathlib

/-!
Shallow embedding of `usb-device-generator` (a build-time USB descriptor and
endpoint-memory compiler) together with proofs about its behaviour.

The embedding follows the Rust sources closely:
  * `src/usb.rs`      — descriptor model, string allocator, descriptor writer;
  * `src/builder.rs`  — device/interface/endpoint builders and `DeviceBuilder::build`;
  * `src/endpoint.rs` — endpoint memory allocator and target-configuration projection;
  * `src/generator.rs` — per-endpoint code emission (control flow only).

Machine integers are modelled as `Nat` with explicit `% 2^w` (or bit masks)
exactly where the Rust code truncates; fallible code (`Result`, `panic!`,
`unwrap`, `assert!`, out-of-bounds indexing) is modelled with `Option`,
`none` standing for any failure.
-/

set_option maxRecDepth 4000

namespace UsbGen

/-- `usb_device::UsbDirection`. -/
inductive UsbDirection where
  | In
  | Out
deriving DecidableEq, Repr

/-- `usb_device::endpoint::EndpointType`. -/
inductive EndpointType where
  | Control
  | Isochronous
  | Bulk
  | Interrupt
deriving DecidableEq, Repr

/-- `EndpointType as u8` (discriminant values of the Rust enum). -/
def EndpointType.toNat : EndpointType → Nat
  | .Control => 0
  | .Isochronous => 1
  | .Bulk => 2
  | .Interrupt => 3

/-- `EndpointAddress::from_parts(index, dir)`: endpoint number with the
direction bit (0x80 for IN) or-ed in. -/
def endpointAddressFromParts (index : Nat) (dir : UsbDirection) : Nat :=
  index ||| (if dir = .In then 0x80 else 0)

/-- `usb.rs`: `enum UsbString { None, Const(String), Custom(usize) }`. -/
inductive UsbString where
  | none
  | const (s : String)
  | custom (id : Nat)
deriving DecidableEq, Repr

/-- Rust `find` over `iter().enumerate()`: first element satisfying `p`,
together with its index. -/
def findEnum {α : Type} (l : List α) (p : α → Bool) : Option (Nat × α) :=
  match l with
  | [] => Option.none
  | a :: rest =>
    if p a then some (0, a)
    else (findEnum rest p).map (fun ix => (ix.1 + 1, ix.2))

theorem findEnum_some {α : Type} {l : List α} {p : α → Bool} {i : Nat} {x : α}
    (h : findEnum l p = some (i, x)) : l.get? i = some x ∧ p x = true := by
  induction l generalizing i with
  | nil => simp [findEnum] at h
  | cons a rest ih =>
    rw [findEnum] at h
    by_cases hp : p a
    · rw [if_pos hp] at h
      simp at h
      obtain ⟨hi, hx⟩ := h
      subst hi; subst hx
      exact ⟨rfl, hp⟩
    · rw [if_neg hp] at h
      match hfe : findEnum rest p with
      | Option.none => rw [hfe] at h; simp at h
      | some (j, y) =>
        rw [hfe] at h
        simp at h
        obtain ⟨hi, hx⟩ := h
        subst hi; subst hx
        simpa using ih hfe

theorem findEnum_none {α : Type} {l : List α} {p : α → Bool}
    (h : findEnum l p = Option.none) : ∀ x ∈ l, p x = false := by
  induction l with
  | nil => intro x hx; simp at hx
  | cons a rest ih =>
    simp only [findEnum] at h
    by_cases hp : p a
    · simp [hp] at h
    · simp [hp] at h
      intro x hx
      rcases List.mem_cons.mp hx with h1 | h2
      · subst h1; simpa using hp
      · match hfe : findEnum rest p with
        | Option.none => exact ih hfe x h2
        | some (j, y) => rw [hfe] at h; simp at h

/-! ## String table (`usb.rs`: `UsbStringAllocator`) -/

/-- `UsbStringAllocator { strings: Vec<UsbString> }`. -/
structure UsbStringAllocator where
  strings : List UsbString
deriving DecidableEq, Repr

namespace UsbStringAllocator

/-- `UsbStringAllocator::new`: the table is seeded with `UsbString::None`. -/
def new : UsbStringAllocator := ⟨[UsbString.none]⟩

/-- `get_index`: first index holding an equal value, cast `as u8`. -/
def get_index (a : UsbStringAllocator) (s : UsbString) : Option Nat :=
  (findEnum a.strings (fun x => x = s)).map (fun ix => ix.1 % 256)

/-- `alloc`: return the existing index, or append and return the new index
(`strings.len() as u8`). -/
def alloc (a : UsbStringAllocator) (s : UsbString) : Nat × UsbStringAllocator :=
  match a.get_index s with
  | some i => (i, a)
  | Option.none => (a.strings.length % 256, ⟨a.strings ++ [s]⟩)

end UsbStringAllocator

/-! ## Descriptor model (`usb.rs`) -/

/-- `usb.rs`: `UsbDeviceDescriptor` (all byte/word fields as `Nat`). -/
structure UsbDeviceDescriptor where
  device_class : Nat
  device_sub_class : Nat
  device_protocol : Nat
  max_packet_size_0 : Nat
  vendor_id : Nat
  product_id : Nat
  device_release : Nat
  manufacturer : UsbString
  product : UsbString
  serial_number : UsbString
deriving DecidableEq, Repr

/-- `usb.rs`: `UsbConfigurationDescriptor`. -/
structure UsbConfigurationDescriptor where
  configuration_value : Nat
  configuration_string : UsbString
  attributes : Nat
  max_power : Nat
deriving DecidableEq, Repr

/-- `usb.rs`: `UsbInterfaceDescriptor`. -/
structure UsbInterfaceDescriptor where
  interface_number : Nat
  alternate_setting : Nat
  interface_class : Nat
  interface_sub_class : Nat
  interface_protocol : Nat
  interface_string : UsbString
deriving DecidableEq, Repr

/-- `usb.rs`: `UsbEndpointDescriptor` (`address` is the packed
`EndpointAddress` byte). -/
structure UsbEndpointDescriptor where
  address : Nat
  attributes : Nat
  max_packet_size : Nat
  interval : Nat
deriving DecidableEq, Repr

/-- `usb.rs`: `UsbCustomDescriptor`. -/
structure UsbCustomDescriptor where
  descriptor_type : Nat
  data : List Nat
deriving DecidableEq, Repr

/-! ## Descriptor writer (`usb.rs`: `UsbDescriptorWriter`) -/

/-- `usb.rs`: `UsbDescriptorWriter` — byte buffer plus the three recorded
backpatch offsets. -/
structure UsbDescriptorWriter where
  buf : List Nat
  configuration_offset : Option Nat
  num_interfaces_mark : Option Nat
  num_endpoints_mark : Option Nat
deriving DecidableEq, Repr

namespace UsbDescriptorWriter

def new : UsbDescriptorWriter := ⟨[], Option.none, Option.none, Option.none⟩

/-- `write`: append `[(len+2) as u8, type]` followed by the payload. -/
def write (w : UsbDescriptorWriter) (descriptor_type : Nat) (descriptor : List Nat) :
    UsbDescriptorWriter :=
  { w with buf := w.buf ++ (descriptor.length + 2) % 256 :: descriptor_type :: descriptor }

def position (w : UsbDescriptorWriter) : Nat := w.buf.length

/-- `buf[m] += 1` on a `u8`; `none` models the out-of-range panic. -/
def bumpByte (buf : List Nat) (m : Nat) : Option (List Nat) :=
  match buf.get? m with
  | some b => some (buf.set m ((b + 1) % 256))
  | Option.none => Option.none

def custom_descriptor (w : UsbDescriptorWriter) (d : UsbCustomDescriptor) :
    UsbDescriptorWriter :=
  w.write d.descriptor_type d.data

/-- `device`: fixed device-descriptor payload; the three `get_index(..).unwrap()`
calls are the only failure points. -/
def device (w : UsbDescriptorWriter) (d : UsbDeviceDescriptor) (num_configurations : Nat)
    (alloc : UsbStringAllocator) : Option UsbDescriptorWriter :=
  match alloc.get_index d.manufacturer, alloc.get_index d.product,
      alloc.get_index d.serial_number with
  | some iManufacturer, some iProduct, some iSerialNumber =>
    some (w.write 1
      [0x00, 0x02,
       d.device_class, d.device_sub_class, d.device_protocol, d.max_packet_size_0,
       d.vendor_id % 256, d.vendor_id / 256 % 256,
       d.product_id % 256, d.product_id / 256 % 256,
       d.device_release % 256, d.device_release / 256 % 256,
       iManufacturer, iProduct, iSerialNumber,
       num_configurations])
  | _, _, _ => Option.none

/-- `update_configuration_length`: backpatch `wTotalLength` (little-endian
`u16` of `position - offset`) at `offset+2 .. offset+4`; `none` models the
out-of-range `copy_from_slice` panic. -/
def update_configuration_length (w : UsbDescriptorWriter) : Option UsbDescriptorWriter :=
  match w.configuration_offset with
  | Option.none => some w
  | some offset =>
    if offset + 4 ≤ w.buf.length then
      let length := (w.buf.length - offset) % 65536
      some { w with buf := (w.buf.set (offset + 2) (length % 256)).set (offset + 3) (length / 256) }
    else Option.none

def configuration (w : UsbDescriptorWriter) (conf : UsbConfigurationDescriptor)
    (alloc : UsbStringAllocator) : Option UsbDescriptorWriter := do
  let w₁ ← w.update_configuration_length
  let w₂ := { w₁ with configuration_offset := some w₁.position,
                      num_interfaces_mark := some (w₁.position + 4) }
  let iConfiguration ← alloc.get_index conf.configuration_string
  pure (w₂.write 2
    [0, 0, 0,
     conf.configuration_value, iConfiguration, conf.attributes, conf.max_power])

def interface (w : UsbDescriptorWriter) (i : UsbInterfaceDescriptor)
    (alloc : UsbStringAllocator) : Option UsbDescriptorWriter := do
  let m ← w.num_interfaces_mark
  let buf' ← bumpByte w.buf m
  let w₁ := { w with buf := buf' }
  let w₂ := { w₁ with num_endpoints_mark := some (w₁.position + 4) }
  let iInterface ← alloc.get_index i.interface_string
  pure (w₂.write 4
    [i.interface_number, i.alternate_setting, 0,
     i.interface_class, i.interface_sub_class, i.interface_protocol, iInterface])

def endpoint (w : UsbDescriptorWriter) (e : UsbEndpointDescriptor) :
    Option UsbDescriptorWriter := do
  let m ← w.num_endpoints_mark
  let buf' ← bumpByte w.buf m
  pure ({ w with buf := buf' }.write 5
    [e.address, e.attributes,
     e.max_packet_size % 256, e.max_packet_size / 256 % 256,
     e.interval])

/-- One UTF-16 code unit (or surrogate pair) of a character, as in
`str::encode_utf16`. -/
def charUtf16 (c : Char) : List Nat :=
  let n := c.toNat
  if n < 0x10000 then [n]
  else [0xD800 + (n - 0x10000) / 0x400, 0xDC00 + (n - 0x10000) % 0x400]

/-- UTF-16LE bytes of a string (each code unit in little-endian order). -/
def utf16leBytes (s : String) : List Nat :=
  (s.data.flatMap charUtf16).flatMap (fun u => [u % 256, u / 256])

def string (w : UsbDescriptorWriter) (s : String) : UsbDescriptorWriter :=
  w.write 3 (utf16leBytes s)

def finish (w : UsbDescriptorWriter) : Option (List Nat) := do
  let w₁ ← w.update_configuration_length
  pure w₁.buf

end UsbDescriptorWriter

/-! ## Builders (`builder.rs`) -/

/-- `builder.rs`: `InterfaceBuilder`. -/
structure InterfaceBuilder where
  descriptor : UsbInterfaceDescriptor
  custom_descriptors : List UsbCustomDescriptor
  endpoints : List UsbEndpointDescriptor
deriving DecidableEq, Repr

/-- `builder.rs`: `DeviceBuilder`. -/
structure DeviceBuilder where
  descriptor : UsbDeviceDescriptor
  configuration_desc : UsbConfigurationDescriptor
  interfaces : List InterfaceBuilder
deriving DecidableEq, Repr

/-- `builder.rs`: `EndpointBuilder`. -/
structure EndpointBuilder where
  number : Option Nat
  direction : Option UsbDirection
  ep_type : Option EndpointType
  max_packet_size : Option Nat
  interval : Nat
deriving DecidableEq, Repr

/-- `builder.rs`: `DeviceConfig` (the two HashMaps become association
lists built in insertion order). -/
structure DeviceConfig where
  device_descriptor : List Nat
  configuration_descriptor : List Nat
  string_descriptors : List (Nat × List Nat)
  custom_strings : List (Nat × Nat)
  endpoints : List UsbEndpointDescriptor
deriving DecidableEq, Repr

instance : Inhabited DeviceConfig := ⟨⟨[], [], [], [], []⟩⟩

/-- `HashMap::insert`: replace an existing key or add a new entry. -/
def insertA {β : Type} (l : List (Nat × β)) (k : Nat) (v : β) : List (Nat × β) :=
  match l with
  | [] => [(k, v)]
  | (k', v') :: rest => if k' = k then (k, v) :: rest else (k', v') :: insertA rest k v

namespace DeviceBuilder

/-- The string-interning sequence at the top of `DeviceBuilder::build`. -/
def allocStrings (b : DeviceBuilder) : UsbStringAllocator :=
  let a := UsbStringAllocator.new
  let a := (a.alloc b.descriptor.manufacturer).2
  let a := (a.alloc b.descriptor.product).2
  let a := (a.alloc b.descriptor.serial_number).2
  let a := (a.alloc b.configuration_desc.configuration_string).2
  let a := b.interfaces.foldl (fun a i => (a.alloc i.descriptor.interface_string).2) a
  (a.alloc (UsbString.custom 42)).2

/-- The `for endpoint in &interface.endpoints` loop of `build`. -/
def writeEndpoints (w : UsbDescriptorWriter) :
    List UsbEndpointDescriptor → Option UsbDescriptorWriter
  | [] => some w
  | e :: es => do
    let w' ← w.endpoint e
    writeEndpoints w' es

/-- One iteration of the `for interface in &self.interfaces` loop of `build`. -/
def writeInterface (w : UsbDescriptorWriter) (i : InterfaceBuilder)
    (alloc : UsbStringAllocator) : Option UsbDescriptorWriter := do
  let w₁ ← w.interface i.descriptor alloc
  let w₂ := i.custom_descriptors.foldl (fun w c => w.custom_descriptor c) w₁
  writeEndpoints w₂ i.endpoints

def writeInterfaces (alloc : UsbStringAllocator) :
    UsbDescriptorWriter → List InterfaceBuilder → Option UsbDescriptorWriter
  | w, [] => some w
  | w, i :: rest => do
    let w' ← writeInterface w i alloc
    writeInterfaces alloc w' rest

/-- `build`: "Generate device descriptor". -/
def deviceBytes (b : DeviceBuilder) (alloc : UsbStringAllocator) : Option (List Nat) := do
  let w ← UsbDescriptorWriter.new.device b.descriptor 1 alloc
  w.finish

/-- `build`: "Generate configuration descriptor". -/
def configBytes (b : DeviceBuilder) (alloc : UsbStringAllocator) : Option (List Nat) := do
  let w ← UsbDescriptorWriter.new.configuration b.configuration_desc alloc
  let w' ← writeInterfaces alloc w b.interfaces
  w'.finish

/-- `build`: "Generate string descriptors" loop; `i` is the running
enumeration index, inserted into the maps `as u8`.
`lang_id::ENGLISH_US = 0x0409`, so its `to_le_bytes` are `[0x09, 0x04]`. -/
def genStrings : Nat → List UsbString → List (Nat × List Nat) → List (Nat × Nat) →
    Option (List (Nat × List Nat) × List (Nat × Nat))
  | _, [], sd, cs => some (sd, cs)
  | i, s :: rest, sd, cs =>
    match s with
    | UsbString.none => do
      let bytes ← (UsbDescriptorWriter.new.write 3 [0x09, 0x04]).finish
      genStrings (i + 1) rest (insertA sd (i % 256) bytes) cs
    | UsbString.const str => do
      let bytes ← (UsbDescriptorWriter.new.string str).finish
      genStrings (i + 1) rest (insertA sd (i % 256) bytes) cs
    | UsbString.custom id => genStrings (i + 1) rest sd (insertA cs (i % 256) id)

/-- `build`: "Generate endpoint list" — the two control pseudo-endpoints
followed by every interface endpoint in order. -/
def endpointList (b : DeviceBuilder) : List UsbEndpointDescriptor :=
  ⟨endpointAddressFromParts 0 .Out, EndpointType.Control.toNat,
      b.descriptor.max_packet_size_0, 0⟩ ::
  ⟨endpointAddressFromParts 0 .In, EndpointType.Control.toNat,
      b.descriptor.max_packet_size_0, 0⟩ ::
  (b.interfaces.map InterfaceBuilder.endpoints).flatten

/-- `DeviceBuilder::build`; `none` models the `assert!(!interfaces.is_empty())`
panic and every panic inside descriptor generation. -/
def build (b : DeviceBuilder) : Option DeviceConfig :=
  if b.interfaces = [] then Option.none
  else do
    let alloc := b.allocStrings
    let device_descriptor ← b.deviceBytes alloc
    let configuration_descriptor ← b.configBytes alloc
    let (string_descriptors, custom_strings) ← genStrings 0 alloc.strings [] []
    pure ⟨device_descriptor, configuration_descriptor,
          string_descriptors, custom_strings, b.endpointList⟩

end DeviceBuilder

/-! ## Receive-buffer size classes (`endpoint.rs`: `calculate_count_rx`) -/

/-- `endpoint.rs`: `calculate_count_rx(size: u16) -> Result<(u16, u16)>`.
The input is a `u16`; every intermediate fits in 16 bits on the two
successful branches, so plain `Nat` arithmetic with the source's bit masks
is exact. -/
def calculate_count_rx (size : Nat) : Option (Nat × Nat) :=
  if size ≤ 62 then
    let size' := (size + 1) &&& 0xFFFE
    let size_bits := size' >>> 1
    some (size', size_bits <<< 10)
  else if size ≤ 1024 then
    let size' := (size + 31) &&& 0xFFE0
    let size_bits := (size' >>> 5) - 1
    some (size', 0x8000 ||| (size_bits <<< 10))
  else Option.none

/-! ## Endpoint resource allocator (`endpoint.rs`) -/

/-- `endpoint.rs`: `EndpointMemoryAllocation { address: u16, size: u16 }`. -/
structure EndpointMemoryAllocation where
  address : Nat
  size : Nat
deriving DecidableEq, Repr

/-- `endpoint.rs`: `EndpointAllocation`; `buffer0`/`buffer1` are
`buffers[BUFFER_TX]` and `buffers[BUFFER_RX]`. -/
structure EndpointAllocation where
  address_index : Nat
  ep_type : EndpointType
  tx_enabled : Bool
  rx_enabled : Bool
  double_buffered : Bool
  buffer_descriptor : EndpointMemoryAllocation
  buffer0 : Option EndpointMemoryAllocation
  buffer1 : Option EndpointMemoryAllocation
deriving DecidableEq, Repr

namespace EndpointAllocation

def has_direction (ep : EndpointAllocation) (direction : UsbDirection) : Bool :=
  (ep.tx_enabled && direction = UsbDirection.In) ||
  (ep.rx_enabled && direction = UsbDirection.Out)

def has_space (ep : EndpointAllocation) (ep_type : EndpointType)
    (direction : UsbDirection) : Bool :=
  if ep.ep_type ≠ ep_type then false
  else if ep.double_buffered then false
  else !ep.has_direction direction

end EndpointAllocation

def USB_MAX_ENDPOINTS : Nat := 16
def DEVICE_ENDPOINT_COUNT : Nat := 8
def ENDPOINT_MEMORY_SIZE : Nat := 512

/-- `endpoint.rs`: `DeviceAllocator`. -/
structure DeviceAllocator where
  endpoints : List EndpointAllocation
  start_address : Nat
  end_address : Nat
deriving DecidableEq, Repr

namespace DeviceAllocator

def new : DeviceAllocator := ⟨[], 0, ENDPOINT_MEMORY_SIZE⟩

/-- `allocate_endpoint_buffer`: round the `u16` size up to the next even
number (`(size + 1) & !0x01`, which also reproduces the 16-bit wrap of
`size + 1`), claim it below `end_address`. -/
def allocate_endpoint_buffer (s : DeviceAllocator) (size : Nat) :
    Option (EndpointMemoryAllocation × DeviceAllocator) :=
  let size := (size + 1) &&& 0xFFFE
  if size ≤ s.end_address - s.start_address then
    some (⟨s.end_address - size, size⟩, { s with end_address := s.end_address - size })
  else Option.none

/-- `allocate_buffer_descriptor`: 8 bytes at `start_address`; the leading
`assert_eq!(start_address % 8, 0)` panic is modelled as `none`. -/
def allocate_buffer_descriptor (s : DeviceAllocator) :
    Option (EndpointMemoryAllocation × DeviceAllocator) :=
  if s.start_address % 8 = 0 then
    if 8 ≤ s.end_address - s.start_address then
      some (⟨s.start_address, 8⟩, { s with start_address := s.start_address + 8 })
    else Option.none
  else Option.none

def allocate_rx_buffer (s : DeviceAllocator) (max_packet_size : Nat) :
    Option (EndpointMemoryAllocation × DeviceAllocator) := do
  let (size, _) ← calculate_count_rx max_packet_size
  s.allocate_endpoint_buffer size

def allocate_tx_buffer (s : DeviceAllocator) (max_packet_size : Nat) :
    Option (EndpointMemoryAllocation × DeviceAllocator) :=
  s.allocate_endpoint_buffer max_packet_size

/-- `get_free_address_index`: lowest index in `1..USB_MAX_ENDPOINTS` not used
by any slot. -/
def get_free_address_index (s : DeviceAllocator) : Option Nat :=
  (List.range' 1 (USB_MAX_ENDPOINTS - 1)).find?
    (fun index => !s.endpoints.any (fun ep => ep.address_index = index))

/-- `allocate_empty_endpoint`: returns the new slot's position in the
endpoint list. -/
def allocate_empty_endpoint (s : DeviceAllocator) (ep_type : EndpointType) :
    Option (DeviceAllocator × Nat) :=
  if s.endpoints.length < DEVICE_ENDPOINT_COUNT then do
    let address_index ← s.get_free_address_index
    let (buffer_descriptor, s₁) ← s.allocate_buffer_descriptor
    let ep : EndpointAllocation :=
      ⟨address_index, ep_type, false, false, false, buffer_descriptor,
       Option.none, Option.none⟩
    pure ({ s₁ with endpoints := s₁.endpoints ++ [ep] }, s₁.endpoints.length)
  else Option.none

/-- `allocate_from_builder`, lines 154–172: choose (or create) the slot the
request lands in, returning its position in the endpoint list. -/
def pickSlot (s : DeviceAllocator) (number : Option Nat) (ep_type : EndpointType)
    (direction : UsbDirection) (double_buffered : Bool) :
    Option (DeviceAllocator × Nat) :=
  match number with
  | some address_index =>
    match findEnum s.endpoints (fun ep => ep.address_index = address_index) with
    | some (i, ep) =>
      if double_buffered || ep.double_buffered || ep.has_direction direction then
        Option.none
      else some (s, i)
    | Option.none => do
      let (s₁, i) ← s.allocate_empty_endpoint ep_type
      let e ← s₁.endpoints.get? i
      pure ({ s₁ with endpoints := s₁.endpoints.set i { e with address_index := address_index } }, i)
  | Option.none =>
    match findEnum s.endpoints (fun ep => ep.has_space ep_type direction) with
    | some (i, _) => some (s, i)
    | Option.none => s.allocate_empty_endpoint ep_type

/-- `allocate_from_builder`, lines 174–206: reserve the packet buffers and
update the chosen slot. -/
def fillBuffers (s : DeviceAllocator) (ep_index : Nat) (direction : UsbDirection)
    (max_packet_size : Nat) (double_buffered : Bool) : Option DeviceAllocator :=
  if double_buffered then do
    let (buf0, s₁) ← if direction = .In then s.allocate_tx_buffer max_packet_size
                     else s.allocate_rx_buffer max_packet_size
    let (buf1, s₂) ← if direction = .In then s₁.allocate_tx_buffer max_packet_size
                     else s₁.allocate_rx_buffer max_packet_size
    let ep ← s₂.endpoints.get? ep_index
    let ep' := { ep with tx_enabled := direction = .In,
                         rx_enabled := direction = .Out,
                         double_buffered := true,
                         buffer0 := some buf0, buffer1 := some buf1 }
    pure { s₂ with endpoints := s₂.endpoints.set ep_index ep' }
  else do
    let (buffer, s₁) ← if direction = .In then s.allocate_tx_buffer max_packet_size
                       else s.allocate_rx_buffer max_packet_size
    let ep ← s₁.endpoints.get? ep_index
    let ep' := if direction = .In
      then { ep with tx_enabled := true, buffer0 := some buffer }
      else { ep with rx_enabled := true, buffer1 := some buffer }
    pure { s₁ with endpoints := s₁.endpoints.set ep_index ep' }

/-- `allocate_from_builder`: the three `ok_or_else` field checks, slot
selection, buffer reservation, then the builder is returned with its
`number` filled in from the slot when it was auto-assigned. -/
def allocate_from_builder (s : DeviceAllocator) (b : EndpointBuilder)
    (double_buffered : Bool) : Option (DeviceAllocator × EndpointBuilder) :=
  match b.ep_type, b.direction, b.max_packet_size with
  | some ep_type, some direction, some max_packet_size => do
    let (s₁, ep_index) ← s.pickSlot b.number ep_type direction double_buffered
    let s₂ ← fillBuffers s₁ ep_index direction max_packet_size double_buffered
    match b.number with
    | Option.none => do
      let ep ← s₂.endpoints.get? ep_index
      pure (s₂, { b with number := some ep.address_index })
    | some _ => pure (s₂, b)
  | _, _, _ => Option.none

/-- `allocate_ep0_from_builfer` (sic): the control endpoint at address 0,
both directions, never double-buffered; no slot-count check is performed. -/
def allocate_ep0_from_builfer (s : DeviceAllocator) (builder : DeviceBuilder) :
    Option (DeviceAllocator × DeviceBuilder) :=
  let max_packet_size := builder.descriptor.max_packet_size_0
  if s.endpoints.any (fun ep => ep.address_index = 0) then Option.none
  else do
    let (buffer_descriptor, s₁) ← s.allocate_buffer_descriptor
    let (buffer_tx, s₂) ← s₁.allocate_tx_buffer max_packet_size
    let (buffer_rx, s₃) ← s₂.allocate_rx_buffer max_packet_size
    pure ({ s₃ with endpoints := s₃.endpoints ++
            [⟨0, .Control, true, true, false, buffer_descriptor,
              some buffer_tx, some buffer_rx⟩] }, builder)

end DeviceAllocator

/-! ## Target configuration projection (`endpoint.rs` / `generator.rs`) -/

/-- `endpoint.rs`: `TargetEndpointConfiguration`. -/
structure TargetEndpointConfiguration where
  ep_address : Nat
  ep_type : EndpointType
  tx_enabled : Bool
  rx_enabled : Bool
  double_buffered : Bool
  buffer_descriptor_offset_bytes : Nat
  buffer_descriptor_data : List Nat
  buffer0_offset_words : Nat
  buffer1_offset_words : Nat
  buffer0_size_words : Nat
  buffer1_size_words : Nat
deriving DecidableEq, Repr

/-- `endpoint.rs`: `create_buffer_descriptor`; `none` models the
`calculate_count_rx(..).unwrap()` / `assert_eq!(size, mem.size)` panics. -/
def create_buffer_descriptor (mem : Option EndpointMemoryAllocation) (is_rx : Bool) :
    Option (Nat × Nat × Nat × Nat) :=
  match mem with
  | some m =>
    if is_rx then
      match calculate_count_rx m.size with
      | Option.none => Option.none
      | some (size, bits) =>
        if size = m.size then some (m.address >>> 1, m.size >>> 1, m.address, bits)
        else Option.none
    else some (m.address >>> 1, m.size >>> 1, m.address, 0)
  | Option.none => some (0, 0, 0, 0)

/-- `impl From<EndpointAllocation> for TargetEndpointConfiguration`; `none`
models the `assert!(ep.address_index < 16)` and buffer-descriptor panics. -/
def toTargetEndpointConfiguration (ep : EndpointAllocation) :
    Option TargetEndpointConfiguration :=
  if ep.address_index < 16 then
    match create_buffer_descriptor ep.buffer0 (ep.double_buffered && ep.rx_enabled) with
    | Option.none => Option.none
    | some (buffer0_offset_words, buffer0_size_words, buffer0_addr, buffer0_count) =>
      match create_buffer_descriptor ep.buffer1 ep.rx_enabled with
      | Option.none => Option.none
      | some (buffer1_offset_words, buffer1_size_words, buffer1_addr, buffer1_count) =>
        some ⟨ep.address_index, ep.ep_type, ep.tx_enabled, ep.rx_enabled,
              ep.double_buffered, ep.buffer_descriptor.address,
              [buffer0_addr, buffer0_count, buffer1_addr, buffer1_count],
              buffer0_offset_words, buffer1_offset_words,
              buffer0_size_words, buffer1_size_words⟩
  else Option.none

/-- What `generator.rs`'s `write_endpoint_configuration` emits for one
endpoint (the generated `Endpoint` method calls, arguments as emitted). -/
inductive EmittedCall where
  | setEpType (t : EndpointType)
  | setInBuf (offset size : Nat)
  | setOutBuf (offset size count : Nat)
deriving DecidableEq, Repr

/-- One iteration of the loop in `write_endpoint_configuration` for the
endpoint at list position `i`: `none` models the
`assert_eq!(i, ep.ep_address)` and the
`panic!("Double-buffered endpoints are not supported yet")`. -/
def write_endpoint_configuration_entry (i : Nat) (ep : TargetEndpointConfiguration) :
    Option (List EmittedCall) :=
  if i = ep.ep_address then
    if !ep.double_buffered then
      some ([EmittedCall.setEpType ep.ep_type] ++
        (if ep.buffer0_size_words ≠ 0 then
          [EmittedCall.setInBuf (ep.buffer0_offset_words <<< 1) (ep.buffer0_size_words <<< 1)]
         else []) ++
        (if ep.buffer1_size_words ≠ 0 then
          [EmittedCall.setOutBuf (ep.buffer1_offset_words <<< 1) (ep.buffer1_size_words <<< 1)
            (ep.buffer_descriptor_data.getD 3 0)]
         else []))
    else Option.none
  else Option.none

/-! ## Supporting lemmas -/

theorem findEnum_append_singleton {α : Type} {l : List α} {x : α} {p : α → Bool}
    (h : ∀ y ∈ l, p y = false) (hx : p x = true) :
    findEnum (l ++ [x]) p = some (l.length, x) := by
  induction l with
  | nil => simp [findEnum, hx]
  | cons a rest ih =>
    have ha : p a = false := h a (by simp)
    have hrest : ∀ y ∈ rest, p y = false := fun y hy => h y (by simp [hy])
    simp [findEnum, ha, ih hrest]

namespace UsbStringAllocator

theorem get_index_none_not_mem {a : UsbStringAllocator} {s : UsbString}
    (h : a.get_index s = Option.none) : s ∉ a.strings := by
  intro hmem
  rw [get_index] at h
  match hfe : findEnum a.strings (fun x => x = s) with
  | some ix => rw [hfe] at h; simp at h
  | Option.none =>
    have := findEnum_none hfe s hmem
    simp at this

/-- After an append-allocating call, looking the value up again finds it at
the index that was just returned. -/
theorem get_index_append_self {a : UsbStringAllocator} {s : UsbString}
    (h : a.get_index s = Option.none) :
    UsbStringAllocator.get_index ⟨a.strings ++ [s]⟩ s = some (a.strings.length % 256) := by
  rw [get_index] at h ⊢
  match hfe : findEnum a.strings (fun x => x = s) with
  | some ix => rw [hfe] at h; simp at h
  | Option.none =>
    have hall : ∀ y ∈ a.strings, (decide (y = s)) = false := findEnum_none hfe
    rw [findEnum_append_singleton hall (by simp)]
    simp

/-- A sequence of `alloc` calls starting from `UsbStringAllocator::new`. -/
def allocSeq (l : List UsbString) : UsbStringAllocator :=
  l.foldl (fun a s => (a.alloc s).2) UsbStringAllocator.new

theorem allocSeq_head : ∀ (l : List UsbString),
    ∃ t, (allocSeq l).strings = UsbString.none :: t := by
  have step : ∀ (a : UsbStringAllocator) (s : UsbString) t,
      a.strings = UsbString.none :: t →
      ∃ t', ((a.alloc s).2).strings = UsbString.none :: t' := by
    intro a s t ht
    rw [alloc]
    match hg : a.get_index s with
    | some i => exact ⟨t, ht⟩
    | Option.none => exact ⟨t ++ [s], by simp [ht]⟩
  have main : ∀ (l : List UsbString) (a : UsbStringAllocator) t,
      a.strings = UsbString.none :: t →
      ∃ t', (l.foldl (fun a s => (a.alloc s).2) a).strings = UsbString.none :: t' := by
    intro l
    induction l with
    | nil => intro a t ht; exact ⟨t, ht⟩
    | cons s rest ih =>
      intro a t ht
      obtain ⟨t', ht'⟩ := step a s t ht
      exact ih _ t' ht'
  exact fun l => main l UsbStringAllocator.new [] rfl

theorem allocSeq_nodup : ∀ (l : List UsbString), (allocSeq l).strings.Nodup := by
  have step : ∀ (a : UsbStringAllocator) (s : UsbString),
      a.strings.Nodup → ((a.alloc s).2).strings.Nodup := by
    intro a s h
    rw [alloc]
    match hg : a.get_index s with
    | some i => exact h
    | Option.none =>
      have : s ∉ a.strings := get_index_none_not_mem hg
      simp [List.nodup_append, h, this]
  have main : ∀ (l : List UsbString) (a : UsbStringAllocator),
      a.strings.Nodup → (l.foldl (fun a s => (a.alloc s).2) a).strings.Nodup := by
    intro l
    induction l with
    | nil => intro a h; exact h
    | cons s rest ih => intro a h; exact ih _ (step a s h)
  exact fun l => main l UsbStringAllocator.new (by simp [UsbStringAllocator.new])

end UsbStringAllocator

/-! ## Claim theorems -/

/-- C3: `calculate_count_rx` returns `(2, 0x0400)` for 1, `(64, 0x8400)` for
64, fails for 1025; for `size ≤ 62` it rounds up to the next multiple of 2
with control word `(allocated/2) << 10`, and for `63 ≤ size ≤ 1024` it rounds
up to the next multiple of 32 with control word
`0x8000 | ((allocated/32 - 1) << 10)`. -/
theorem calculate_count_rx_spec :
    calculate_count_rx 1 = some (2, 0x0400) ∧
    calculate_count_rx 64 = some (64, 0x8400) ∧
    calculate_count_rx 1025 = Option.none ∧
    (∀ size : Nat, size ≤ 62 →
      calculate_count_rx size =
        some (2 * ((size + 1) / 2), (2 * ((size + 1) / 2) / 2) <<< 10)) ∧
    (∀ size : Nat, size ≤ 1024 → 63 ≤ size →
      calculate_count_rx size =
        some (32 * ((size + 31) / 32),
              0x8000 ||| ((32 * ((size + 31) / 32) / 32 - 1) <<< 10))) := by
  refine ⟨by decide, by decide, by decide, by decide, by decide⟩

/-- C3 witness: the rounding branches evaluated at 5 and at 100. -/
theorem calculate_count_rx_spec_witness :
    calculate_count_rx 5 = some (2 * ((5 + 1) / 2), (2 * ((5 + 1) / 2) / 2) <<< 10) ∧
    calculate_count_rx 100 =
      some (32 * ((100 + 31) / 32), 0x8000 ||| ((32 * ((100 + 31) / 32) / 32 - 1) <<< 10)) :=
  ⟨calculate_count_rx_spec.2.2.2.1 5 (by decide),
   calculate_count_rx_spec.2.2.2.2 100 (by decide) (by decide)⟩

/-- C2's reserve operations: `allocate_buffer_descriptor` (ascending) and
`allocate_endpoint_buffer` (descending). -/
inductive AllocOp where
  | bufferDescriptor
  | endpointBuffer (size : Nat)
deriving DecidableEq, Repr

def allocStep (s : DeviceAllocator) : AllocOp → Option DeviceAllocator
  | .bufferDescriptor => s.allocate_buffer_descriptor.map Prod.snd
  | .endpointBuffer size => (s.allocate_endpoint_buffer size).map Prod.snd

/-- Run a sequence of reserve operations; a failed reservation leaves the
allocator as it was. -/
def runAllocOps (s : DeviceAllocator) (ops : List AllocOp) : DeviceAllocator :=
  ops.foldl (fun s op =>
    match allocStep s op with
    | some s' => s'
    | Option.none => s) s

/-- The packet-memory cursor invariant of C2. -/
def MemInv (s : DeviceAllocator) : Prop :=
  s.start_address % 8 = 0 ∧ s.start_address ≤ s.end_address ∧
    s.end_address ≤ ENDPOINT_MEMORY_SIZE

theorem allocStep_preserves {s : DeviceAllocator} (op : AllocOp) (h : MemInv s) :
    MemInv (match allocStep s op with
            | some s' => s'
            | Option.none => s) := by
  obtain ⟨h8, hle, h512⟩ := h
  cases op with
  | bufferDescriptor =>
    simp only [allocStep, DeviceAllocator.allocate_buffer_descriptor]
    by_cases h1 : s.start_address % 8 = 0
    · by_cases h2 : 8 ≤ s.end_address - s.start_address
      · rw [if_pos h1, if_pos h2]
        show MemInv { s with start_address := s.start_address + 8 }
        dsimp only [MemInv]
        exact ⟨by omega, by omega, h512⟩
      · rw [if_pos h1, if_neg h2]
        exact ⟨h8, hle, h512⟩
    · rw [if_neg h1]
      exact ⟨h8, hle, h512⟩
  | endpointBuffer size =>
    simp only [allocStep, DeviceAllocator.allocate_endpoint_buffer]
    by_cases h2 : (size + 1) &&& 0xFFFE ≤ s.end_address - s.start_address
    · rw [if_pos h2]
      show MemInv { s with end_address := s.end_address - ((size + 1) &&& 0xFFFE) }
      dsimp only [MemInv]
      exact ⟨h8, by omega, by omega⟩
    · rw [if_neg h2]
      exact ⟨h8, hle, h512⟩

theorem runAllocOps_preserves (ops : List AllocOp) :
    ∀ s : DeviceAllocator, MemInv s → MemInv (runAllocOps s ops) := by
  induction ops with
  | nil => intro s h; exact h
  | cons op rest ih =>
    intro s h
    have hstep := allocStep_preserves (s := s) op h
    show MemInv (runAllocOps (match allocStep s op with
      | some s' => s'
      | Option.none => s) rest)
    exact ih _ hstep

/-- C2: starting from `DeviceAllocator::new` (cursors 0 and 512), every
sequence of reserve operations — whether each call succeeds or fails — keeps
`start_address ≤ end_address ≤ 512` (the cursors never cross), keeps
`start_address` 8-byte aligned, keeps the total consumed bytes within 512,
and a failing reservation leaves both cursors (indeed the whole allocator)
unchanged. -/
theorem allocator_cursor_invariant :
    (∀ ops : List AllocOp,
      MemInv (runAllocOps DeviceAllocator.new ops) ∧
      (runAllocOps DeviceAllocator.new ops).start_address +
        (ENDPOINT_MEMORY_SIZE - (runAllocOps DeviceAllocator.new ops).end_address) ≤
          ENDPOINT_MEMORY_SIZE) ∧
    (∀ (s : DeviceAllocator) (op : AllocOp),
      allocStep s op = Option.none → runAllocOps s [op] = s) := by
  constructor
  · intro ops
    have hinv : MemInv (runAllocOps DeviceAllocator.new ops) :=
      runAllocOps_preserves ops DeviceAllocator.new
        (by refine ⟨rfl, by simp [DeviceAllocator.new], le_refl _⟩)
    obtain ⟨h8, hle, h512⟩ := hinv
    exact ⟨⟨h8, hle, h512⟩, by omega⟩
  · intro s op h
    simp [runAllocOps, h]

/-- C2 witness: after reserving a 510-byte endpoint buffer only 2 bytes
remain, so a buffer-descriptor reservation fails and leaves the allocator
unchanged. -/
theorem allocator_cursor_invariant_witness :
    runAllocOps (runAllocOps DeviceAllocator.new [AllocOp.endpointBuffer 510])
      [AllocOp.bufferDescriptor] =
      runAllocOps DeviceAllocator.new [AllocOp.endpointBuffer 510] :=
  allocator_cursor_invariant.2 (runAllocOps DeviceAllocator.new [AllocOp.endpointBuffer 510])
    AllocOp.bufferDescriptor (by decide)

/-- C7: string interning is idempotent — a second `alloc` of an equal value
returns the same index and leaves the table unchanged (for every table
state); interning `UsbString::None` on any table reached from `new` returns
the seeded index 0 and changes nothing; and every table reached from `new`
holds pairwise-distinct values, so no value (in particular no `Const`
literal) ever occupies two distinct indices. -/
theorem string_interning_idempotent :
    (∀ (a : UsbStringAllocator) (v : UsbString),
      ((a.alloc v).2.alloc v).1 = (a.alloc v).1 ∧ ((a.alloc v).2.alloc v).2 = (a.alloc v).2) ∧
    (∀ l : List UsbString,
      (UsbStringAllocator.allocSeq l).alloc UsbString.none =
        (0, UsbStringAllocator.allocSeq l)) ∧
    (∀ l : List UsbString, (UsbStringAllocator.allocSeq l).strings.Nodup) := by
  refine ⟨?_, ?_, UsbStringAllocator.allocSeq_nodup⟩
  · intro a v
    match hg : a.get_index v with
    | some i =>
      have h1 : a.alloc v = (i, a) := by simp [UsbStringAllocator.alloc, hg]
      simp [h1]
    | Option.none =>
      have h1 : a.alloc v = (a.strings.length % 256, ⟨a.strings ++ [v]⟩) := by
        simp [UsbStringAllocator.alloc, hg]
      have h2 : UsbStringAllocator.alloc ⟨a.strings ++ [v]⟩ v =
          (a.strings.length % 256, ⟨a.strings ++ [v]⟩) := by
        simp [UsbStringAllocator.alloc, UsbStringAllocator.get_index_append_self hg]
      simp [h1, h2]
  · intro l
    obtain ⟨t, ht⟩ := UsbStringAllocator.allocSeq_head l
    have hg : (UsbStringAllocator.allocSeq l).get_index UsbString.none = some 0 := by
      rw [UsbStringAllocator.get_index, ht]
      simp [findEnum]
    simp [UsbStringAllocator.alloc, hg]

/-- A concrete device descriptor used to evaluate `UsbDescriptorWriter::device`. -/
def c6desc : UsbDeviceDescriptor :=
  ⟨0, 0, 0, 8, 0x1234, 0x5678, 0x0010, UsbString.none, UsbString.none, UsbString.none⟩

/-- C6 counterexample: on a concrete descriptor the emitted device-descriptor
TLV is 18 bytes — a 16-byte payload, not the 14-byte payload the claim
states (14 + 2 ≠ 18). -/
theorem device_payload_not_14_bytes :
    (UsbDescriptorWriter.new.device c6desc 1 UsbStringAllocator.new).map
        (fun w => w.buf.length) = some 18 ∧ 14 + 2 ≠ 18 := by decide

/-- C6 (amended): `UsbDescriptorWriter::device` emits a TLV element
(`bLength = 18`, type 1) whose payload is the fixed **16-byte** device
descriptor payload, with `bcdUSB = 0x0200`, `idVendor`, `idProduct` and
`bcdDevice` encoded little-endian and the three string-index bytes resolved
from the string table. -/
theorem device_descriptor_bytes (w : UsbDescriptorWriter) (d : UsbDeviceDescriptor)
    (n : Nat) (a : UsbStringAllocator) (iM iP iS : Nat)
    (hM : a.get_index d.manufacturer = some iM)
    (hP : a.get_index d.product = some iP)
    (hS : a.get_index d.serial_number = some iS) :
    w.device d n a = some { w with buf := w.buf ++
      [18, 1, 0x00, 0x02, d.device_class, d.device_sub_class, d.device_protocol,
       d.max_packet_size_0,
       d.vendor_id % 256, d.vendor_id / 256 % 256,
       d.product_id % 256, d.product_id / 256 % 256,
       d.device_release % 256, d.device_release / 256 % 256,
       iM, iP, iS, n] } := by
  simp [UsbDescriptorWriter.device, hM, hP, hS, UsbDescriptorWriter.write]

/-- C6 witness: the amended theorem evaluated on the concrete descriptor. -/
theorem device_descriptor_bytes_witness :
    UsbDescriptorWriter.new.device c6desc 1 UsbStringAllocator.new =
      some { UsbDescriptorWriter.new with buf := UsbDescriptorWriter.new.buf ++
        [18, 1, 0x00, 0x02, c6desc.device_class, c6desc.device_sub_class,
         c6desc.device_protocol, c6desc.max_packet_size_0,
         c6desc.vendor_id % 256, c6desc.vendor_id / 256 % 256,
         c6desc.product_id % 256, c6desc.product_id / 256 % 256,
         c6desc.device_release % 256, c6desc.device_release / 256 % 256,
         0, 0, 0, 1] } :=
  device_descriptor_bytes UsbDescriptorWriter.new c6desc 1 UsbStringAllocator.new 0 0 0
    (by decide) (by decide) (by decide)

instance : Inhabited TargetEndpointConfiguration :=
  ⟨⟨0, .Control, false, false, false, 0, [], 0, 0, 0, 0⟩⟩

/-- A double-buffered TX slot as the allocator would lay it out. -/
def dbAlloc : EndpointAllocation :=
  ⟨1, .Bulk, true, false, true, ⟨0, 8⟩, some ⟨496, 8⟩, some ⟨488, 8⟩⟩

/-- C8 counterexample: the `From<EndpointAllocation>` projection does **not**
fail on a double-buffered slot — it yields a configuration record. -/
theorem double_buffered_projection_succeeds :
    dbAlloc.double_buffered = true ∧
    (toTargetEndpointConfiguration dbAlloc).isSome = true := by decide

/-- C8 (amended): the `From<EndpointAllocation>` projection passes
double-buffered slots through unchanged (the record keeps the
`double_buffered` flag); the rejection happens later, in the generator's
`write_endpoint_configuration`, which panics on any double-buffered endpoint
instead of emitting its buffer configuration. -/
theorem double_buffered_rejected_in_generator (ep : EndpointAllocation)
    (cfg : TargetEndpointConfiguration)
    (h : toTargetEndpointConfiguration ep = some cfg) :
    cfg.double_buffered = ep.double_buffered ∧
    (ep.double_buffered = true →
      write_endpoint_configuration_entry cfg.ep_address cfg = Option.none) := by
  rw [toTargetEndpointConfiguration] at h
  by_cases h16 : ep.address_index < 16
  · rw [if_pos h16] at h
    match hc0 : create_buffer_descriptor ep.buffer0 (ep.double_buffered && ep.rx_enabled) with
    | Option.none => rw [hc0] at h; simp at h
    | some (o0, s0, a0, c0) =>
      rw [hc0] at h
      match hc1 : create_buffer_descriptor ep.buffer1 ep.rx_enabled with
      | Option.none => rw [hc1] at h; simp at h
      | some (o1, s1, a1, c1) =>
        rw [hc1] at h
        simp only [Option.some_inj] at h
        subst h
        refine ⟨rfl, fun hdb => ?_⟩
        simp [write_endpoint_configuration_entry, hdb]
  · rw [if_neg h16] at h
    simp at h

/-- C8 witness: the amended theorem evaluated on the concrete
double-buffered slot. -/
theorem double_buffered_rejected_in_generator_witness :
    ((toTargetEndpointConfiguration dbAlloc).getD default).double_buffered =
        dbAlloc.double_buffered ∧
    (dbAlloc.double_buffered = true →
      write_endpoint_configuration_entry
        ((toTargetEndpointConfiguration dbAlloc).getD default).ep_address
        ((toTargetEndpointConfiguration dbAlloc).getD default) = Option.none) :=
  double_buffered_rejected_in_generator dbAlloc
    ((toTargetEndpointConfiguration dbAlloc).getD default) (by decide)

/-! ## C5: the 8-slot endpoint-table limit -/

/-- A fully specified endpoint request. -/
def mkEp (number : Option Nat) (direction : UsbDirection) (ep_type : EndpointType)
    (max_packet_size : Nat) : EndpointBuilder :=
  ⟨number, some direction, some ep_type, some max_packet_size, 0⟩

/-- One pinned-address bulk-IN allocation (8-byte packets). -/
def allocPinned (s : Option DeviceAllocator) (n : Nat) : Option DeviceAllocator :=
  s.bind (fun s => (s.allocate_from_builder (mkEp (some n) .In .Bulk 8) false).map Prod.fst)

/-- A sequence of pinned-address allocations, each creating a distinct slot. -/
def allocPinnedSeq (s : Option DeviceAllocator) (ns : List Nat) : Option DeviceAllocator :=
  ns.foldl allocPinned s

/-- A minimal `DeviceBuilder` (only `max_packet_size_0 = 8` matters to
`allocate_ep0_from_builfer`). -/
def c5device : DeviceBuilder :=
  ⟨⟨0, 0, 0, 8, 0, 0, 0x0010, UsbString.none, UsbString.none, UsbString.none⟩,
   ⟨1, UsbString.none, 0x80, 50⟩, []⟩

/-- The allocator right after the control endpoint has been allocated. -/
def c5afterEp0 : Option DeviceAllocator :=
  (DeviceAllocator.new.allocate_ep0_from_builfer c5device).map Prod.fst

/-- C5 counterexample: after the control endpoint is allocated, only 7 — not
8 — further distinct non-control slots can be created: the 8th further
request already fails, because EP0 occupies one of the 8 table slots. -/
theorem ep0_counts_against_slot_limit :
    (allocPinnedSeq c5afterEp0 [1, 2, 3, 4, 5, 6, 7]).isSome = true ∧
    allocPinnedSeq c5afterEp0 [1, 2, 3, 4, 5, 6, 7, 8] = Option.none := by decide

/-- C5 (amended): requesting a 9th distinct hardware endpoint slot fails with
a resource-exhaustion error, and the control endpoint at address 0 **does**
count against the 8-slot limit (its own allocation path performs no
slot-count check): without EP0, 8 distinct slots succeed and the 9th fails;
after `allocate_ep0_from_builfer`, 7 further distinct non-control slots
succeed and the 8th such request fails. -/
theorem endpoint_slot_limit :
    (allocPinnedSeq (some DeviceAllocator.new) [1, 2, 3, 4, 5, 6, 7, 8]).map
        (fun s => s.endpoints.length) = some 8 ∧
    allocPinnedSeq (some DeviceAllocator.new) [1, 2, 3, 4, 5, 6, 7, 8, 9] = Option.none ∧
    (allocPinnedSeq c5afterEp0 [1, 2, 3, 4, 5, 6, 7]).map
        (fun s => s.endpoints.length) = some 8 ∧
    allocPinnedSeq c5afterEp0 [1, 2, 3, 4, 5, 6, 7, 8] = Option.none := by decide

/-! ## C10: pinned-address merging ignores the endpoint type -/

theorem allocate_endpoint_buffer_endpoints {s s' : DeviceAllocator} {size : Nat}
    {mem : EndpointMemoryAllocation}
    (h : s.allocate_endpoint_buffer size = some (mem, s')) : s'.endpoints = s.endpoints := by
  rw [DeviceAllocator.allocate_endpoint_buffer] at h
  by_cases hc : (size + 1) &&& 0xFFFE ≤ s.end_address - s.start_address
  · rw [if_pos hc] at h
    simp only [Option.some_inj, Prod.mk.injEq] at h
    rw [← h.2]
  · rw [if_neg hc] at h
    simp at h

theorem allocate_tx_buffer_endpoints {s s' : DeviceAllocator} {m : Nat}
    {mem : EndpointMemoryAllocation}
    (h : s.allocate_tx_buffer m = some (mem, s')) : s'.endpoints = s.endpoints :=
  allocate_endpoint_buffer_endpoints h

theorem allocate_rx_buffer_endpoints {s s' : DeviceAllocator} {m : Nat}
    {mem : EndpointMemoryAllocation}
    (h : s.allocate_rx_buffer m = some (mem, s')) : s'.endpoints = s.endpoints := by
  rw [DeviceAllocator.allocate_rx_buffer] at h
  simp only [Option.bind_eq_bind, Option.bind_eq_some] at h
  obtain ⟨⟨size, bits⟩, hc, h⟩ := h
  exact allocate_endpoint_buffer_endpoints h

theorem get?_set_at {α : Type} {l : List α} {i : Nat} (a : α) (h : i < l.length) :
    (l.set i a).get? i = some a := by
  induction l generalizing i with
  | nil => simp at h
  | cons x rest ih =>
    cases i with
    | zero => rfl
    | succ j =>
      simp only [List.set_cons_succ, List.get?_cons_succ]
      exact ih (by simpa using h)

/-- C10: when a pinned endpoint number matches an existing slot that is not
double-buffered, the request is not double-buffered, and the slot does not
already serve the requested direction, `allocate_from_builder` merges into
that slot with **no** type-compatibility check: no hypothesis relates the
requested type `t` to the slot's `ep.ep_type`, no new slot is created, and
the slot keeps its original type while gaining the requested direction. -/
theorem pinned_merge_ignores_type (s : DeviceAllocator) (b : EndpointBuilder)
    (n i : Nat) (ep : EndpointAllocation) (t : EndpointType) (d : UsbDirection) (m : Nat)
    (hn : b.number = some n) (ht : b.ep_type = some t) (hd : b.direction = some d)
    (hm : b.max_packet_size = some m)
    (hfind : findEnum s.endpoints (fun e => e.address_index = n) = some (i, ep))
    (hdb : ep.double_buffered = false)
    (hdir : ep.has_direction d = false)
    (s' : DeviceAllocator) (b' : EndpointBuilder)
    (hsucc : s.allocate_from_builder b false = some (s', b')) :
    s'.endpoints.length = s.endpoints.length ∧
    b' = b ∧
    ∃ ep', s'.endpoints.get? i = some ep' ∧
      ep'.ep_type = ep.ep_type ∧
      ep'.address_index = ep.address_index ∧
      ep'.has_direction d = true := by
  have hgi : s.endpoints.get? i = some ep := (findEnum_some hfind).1
  have hlt : i < s.endpoints.length := by
    rcases List.get?_eq_some.mp hgi with ⟨hw, _⟩
    exact hw
  have hpick : s.pickSlot b.number t d false = some (s, i) := by
    rw [hn]
    simp [DeviceAllocator.pickSlot, hfind, hdb, hdir]
  rw [DeviceAllocator.allocate_from_builder, ht, hd, hm] at hsucc
  simp only [Option.bind_eq_bind, Option.bind_eq_some] at hsucc
  obtain ⟨⟨s₁, ep_index⟩, hp, hsucc⟩ := hsucc
  rw [hpick] at hp
  simp only [Option.some_inj, Prod.mk.injEq] at hp
  obtain ⟨hp1, hp2⟩ := hp
  subst hp1; subst hp2
  obtain ⟨s₂, hfb, hsucc⟩ := hsucc
  rw [hn] at hsucc
  simp only [Option.pure_def, Option.some_inj, Prod.mk.injEq] at hsucc
  obtain ⟨hs2, hb⟩ := hsucc
  subst hs2; subst hb
  rw [DeviceAllocator.fillBuffers] at hfb
  cases d with
  | In =>
    simp only [reduceIte, Bool.false_eq_true, if_false, Option.bind_eq_bind,
      Option.bind_eq_some, Option.pure_def, Option.some_inj] at hfb
    obtain ⟨⟨buffer, s₁⟩, hbuf, ep₀, hget, hfb⟩ := hfb
    have hs₁ : s₁.endpoints = s.endpoints := allocate_tx_buffer_endpoints hbuf
    have hep₀ : ep₀ = ep := by
      rw [hs₁, hgi] at hget
      exact (Option.some_inj.mp hget).symm
    rw [hep₀] at hfb
    subst hfb
    refine ⟨by simp [hs₁], rfl, ?_⟩
    refine ⟨{ ep with tx_enabled := true, buffer0 := some buffer }, ?_, rfl, rfl, ?_⟩
    · show (s₁.endpoints.set i _).get? i = _
      exact get?_set_at _ (by rw [hs₁]; exact hlt)
    · simp [EndpointAllocation.has_direction]
  | Out =>
    have hF : ¬(false = true) := by decide
    have hOut : ¬(UsbDirection.Out = UsbDirection.In) := by decide
    simp only [if_neg hF, if_neg hOut, Option.bind_eq_bind,
      Option.bind_eq_some, Option.pure_def, Option.some_inj] at hfb
    obtain ⟨⟨buffer, s₁⟩, hbuf, ep₀, hget, hfb⟩ := hfb
    have hs₁ : s₁.endpoints = s.endpoints := allocate_rx_buffer_endpoints hbuf
    have hep₀ : ep₀ = ep := by
      rw [hs₁, hgi] at hget
      exact (Option.some_inj.mp hget).symm
    rw [hep₀] at hfb
    subst hfb
    refine ⟨by simp [hs₁], rfl, ?_⟩
    refine ⟨{ ep with rx_enabled := true, buffer1 := some buffer }, ?_, rfl, rfl, ?_⟩
    · show (s₁.endpoints.set i _).get? i = _
      exact get?_set_at _ (by rw [hs₁]; exact hlt)
    · simp [EndpointAllocation.has_direction]

def c10slot : EndpointAllocation :=
  ⟨1, .Bulk, true, false, false, ⟨0, 8⟩, some ⟨504, 8⟩, Option.none⟩

def c10state : DeviceAllocator := ⟨[c10slot], 8, 504⟩

def c10builder : EndpointBuilder := mkEp (some 1) .Out .Interrupt 8

def c10result : DeviceAllocator × EndpointBuilder :=
  (c10state.allocate_from_builder c10builder false).getD (DeviceAllocator.new, c10builder)

/-- C10 witness: an Interrupt-OUT request pinned to address 1 merges into the
existing Bulk IN slot (different type) without creating a new slot. -/
theorem pinned_merge_ignores_type_witness :
    c10result.1.endpoints.length = c10state.endpoints.length ∧
    c10result.2 = c10builder := by
  have h := pinned_merge_ignores_type c10state c10builder 1 0 c10slot
    .Interrupt .Out 8 rfl rfl rfl rfl (by decide) rfl rfl
    c10result.1 c10result.2 (by decide)
  exact ⟨h.1, h.2.1⟩

/-! ## C4: no two slots share an address index -/

/-- The hardware address indices of the allocator's slots, in slot order. -/
def addrs (s : DeviceAllocator) : List Nat :=
  s.endpoints.map (fun ep => ep.address_index)

theorem map_set_same {α β : Type} {l : List α} {i : Nat} {e : α} (f : α → β) (x : α)
    (hg : l.get? i = some e) (hf : f x = f e) : (l.set i x).map f = l.map f := by
  induction l generalizing i with
  | nil => simp at hg
  | cons y rest ih =>
    cases i with
    | zero =>
      simp only [List.get?_cons_zero, Option.some_inj] at hg
      subst hg
      simp [hf]
    | succ j =>
      simp only [List.get?_cons_succ] at hg
      simp [ih hg]

theorem set_concat_last {α : Type} (l : List α) (e x : α) :
    (l ++ [e]).set l.length x = l ++ [x] := by
  induction l with
  | nil => rfl
  | cons y rest ih => simp [ih]

theorem get_free_address_index_fresh {s : DeviceAllocator} {idx : Nat}
    (h : s.get_free_address_index = some idx) :
    ∀ ep ∈ s.endpoints, ep.address_index ≠ idx := by
  rw [DeviceAllocator.get_free_address_index] at h
  have hp := List.find?_some h
  simp only [Bool.not_eq_eq_eq_not, Bool.not_true, List.any_eq_false,
    decide_eq_false_iff_not, decide_eq_true_eq] at hp
  exact hp

theorem allocate_buffer_descriptor_endpoints {s s' : DeviceAllocator}
    {mem : EndpointMemoryAllocation}
    (h : s.allocate_buffer_descriptor = some (mem, s')) : s'.endpoints = s.endpoints := by
  rw [DeviceAllocator.allocate_buffer_descriptor] at h
  by_cases h8 : s.start_address % 8 = 0
  · rw [if_pos h8] at h
    by_cases hc : 8 ≤ s.end_address - s.start_address
    · rw [if_pos hc] at h
      simp only [Option.some_inj, Prod.mk.injEq] at h
      rw [← h.2]
    · rw [if_neg hc] at h
      simp at h
  · rw [if_neg h8] at h
    simp at h

theorem allocate_empty_endpoint_spec {s s' : DeviceAllocator} {t : EndpointType} {i : Nat}
    (h : s.allocate_empty_endpoint t = some (s', i)) :
    ∃ ep : EndpointAllocation,
      s'.endpoints = s.endpoints ++ [ep] ∧
      i = s.endpoints.length ∧
      ep.address_index ∉ addrs s := by
  rw [DeviceAllocator.allocate_empty_endpoint] at h
  by_cases hlen : s.endpoints.length < DEVICE_ENDPOINT_COUNT
  · rw [if_pos hlen] at h
    simp only [Option.bind_eq_bind, Option.bind_eq_some, Option.pure_def,
      Option.some_inj, Prod.mk.injEq] at h
    obtain ⟨address_index, hfree, ⟨bd, s₁⟩, hbd, hs', hi⟩ := h
    have hend : s₁.endpoints = s.endpoints := allocate_buffer_descriptor_endpoints hbd
    refine ⟨⟨address_index, t, false, false, false, bd, Option.none, Option.none⟩, ?_, ?_, ?_⟩
    · rw [← hs']
      simp [hend]
    · rw [← hi, hend]
    · intro hmem
      rw [addrs, List.mem_map] at hmem
      obtain ⟨ep, hep, heq⟩ := hmem
      exact get_free_address_index_fresh hfree ep hep heq
  · rw [if_neg hlen] at h
    simp at h

theorem dir_buffer_endpoints {s s' : DeviceAllocator} {d : UsbDirection} {m : Nat}
    {mem : EndpointMemoryAllocation}
    (h : (if d = UsbDirection.In then s.allocate_tx_buffer m
          else s.allocate_rx_buffer m) = some (mem, s')) : s'.endpoints = s.endpoints := by
  cases d with
  | In =>
    rw [if_pos rfl] at h
    exact allocate_tx_buffer_endpoints h
  | Out =>
    rw [if_neg (by decide : ¬(UsbDirection.Out = UsbDirection.In))] at h
    exact allocate_rx_buffer_endpoints h

theorem fillBuffers_addrs {s s' : DeviceAllocator} {i : Nat} {d : UsbDirection} {m : Nat}
    {db : Bool} (h : DeviceAllocator.fillBuffers s i d m db = some s') :
    addrs s' = addrs s := by
  rw [DeviceAllocator.fillBuffers] at h
  have hOut : ¬(UsbDirection.Out = UsbDirection.In) := by decide
  cases db with
  | true =>
    rw [if_pos rfl] at h
    cases d with
    | In =>
      simp only [reduceIte, Option.bind_eq_bind, Option.bind_eq_some, Option.pure_def,
        Option.some_inj] at h
      obtain ⟨⟨buf0, s₁⟩, hb0, ⟨buf1, s₂⟩, hb1, ep, hget, hs'⟩ := h
      have h1 : s₁.endpoints = s.endpoints := allocate_tx_buffer_endpoints hb0
      have h2 : s₂.endpoints = s₁.endpoints := allocate_tx_buffer_endpoints hb1
      rw [← hs']
      show ((s₂.endpoints.set i _).map _) = _
      refine Eq.trans (map_set_same _ _ hget ?_) ?_
      · rfl
      · rw [addrs, h2, h1]
    | Out =>
      simp only [if_neg hOut, Option.bind_eq_bind, Option.bind_eq_some, Option.pure_def,
        Option.some_inj] at h
      obtain ⟨⟨buf0, s₁⟩, hb0, ⟨buf1, s₂⟩, hb1, ep, hget, hs'⟩ := h
      have h1 : s₁.endpoints = s.endpoints := allocate_rx_buffer_endpoints hb0
      have h2 : s₂.endpoints = s₁.endpoints := allocate_rx_buffer_endpoints hb1
      rw [← hs']
      show ((s₂.endpoints.set i _).map _) = _
      refine Eq.trans (map_set_same _ _ hget ?_) ?_
      · rfl
      · rw [addrs, h2, h1]
  | false =>
    rw [if_neg (by decide : ¬(false = true))] at h
    cases d with
    | In =>
      simp only [reduceIte, Option.bind_eq_bind, Option.bind_eq_some, Option.pure_def,
        Option.some_inj] at h
      obtain ⟨⟨buffer, s₁⟩, hb, ep, hget, hs'⟩ := h
      have h1 : s₁.endpoints = s.endpoints := allocate_tx_buffer_endpoints hb
      rw [← hs']
      show ((s₁.endpoints.set i _).map _) = _
      refine Eq.trans (map_set_same _ _ hget ?_) ?_
      · rfl
      · rw [addrs, h1]
    | Out =>
      simp only [if_neg hOut, Option.bind_eq_bind, Option.bind_eq_some, Option.pure_def,
        Option.some_inj] at h
      obtain ⟨⟨buffer, s₁⟩, hb, ep, hget, hs'⟩ := h
      have h1 : s₁.endpoints = s.endpoints := allocate_rx_buffer_endpoints hb
      rw [← hs']
      show ((s₁.endpoints.set i _).map _) = _
      refine Eq.trans (map_set_same _ _ hget ?_) ?_
      · rfl
      · rw [addrs, h1]

theorem pickSlot_addrs {s s₁ : DeviceAllocator} {number : Option Nat} {t : EndpointType}
    {d : UsbDirection} {db : Bool} {i : Nat}
    (h : s.pickSlot number t d db = some (s₁, i)) :
    addrs s₁ = addrs s ∨ ∃ a, a ∉ addrs s ∧ addrs s₁ = addrs s ++ [a] := by
  cases number with
  | some n =>
    match hfe : findEnum s.endpoints (fun ep => ep.address_index = n) with
    | some (j, ep) =>
      rw [DeviceAllocator.pickSlot] at h
      simp only [hfe] at h
      by_cases hc : (db || ep.double_buffered || ep.has_direction d) = true
      · rw [if_pos hc] at h
        simp at h
      · rw [if_neg hc] at h
        simp only [Option.some_inj, Prod.mk.injEq] at h
        left
        rw [← h.1]
    | Option.none =>
      rw [DeviceAllocator.pickSlot] at h
      simp only [hfe, Option.bind_eq_bind, Option.bind_eq_some, Option.pure_def,
        Option.some_inj, Prod.mk.injEq] at h
      obtain ⟨⟨s₂, j⟩, hempty, e, hget, hs₁, hi⟩ := h
      obtain ⟨ep, hends, hj, _⟩ := allocate_empty_endpoint_spec hempty
      right
      refine ⟨n, ?_, ?_⟩
      · intro hmem
        rw [addrs, List.mem_map] at hmem
        obtain ⟨ep', hep', heq⟩ := hmem
        have := findEnum_none hfe ep' hep'
        simp [heq] at this
      · rw [← hs₁]
        show ((s₂.endpoints.set j _).map _) = _
        have hget' : s₂.endpoints.get? j = some ep := by
          rw [hends, hj]
          exact List.get?_concat_length _ _
        have hee : e = ep := by
          rw [hget'] at hget
          exact (Option.some_inj.mp hget).symm
        subst hee
        rw [hends, hj, set_concat_last]
        simp [addrs]
  | none =>
    match hfe : findEnum s.endpoints (fun ep => ep.has_space t d) with
    | some (j, ep) =>
      rw [DeviceAllocator.pickSlot] at h
      simp only [hfe, Option.some_inj, Prod.mk.injEq] at h
      left
      rw [← h.1]
    | Option.none =>
      rw [DeviceAllocator.pickSlot] at h
      simp only [hfe] at h
      obtain ⟨ep, hends, hj, hfresh⟩ := allocate_empty_endpoint_spec h
      right
      refine ⟨ep.address_index, hfresh, ?_⟩
      rw [addrs, hends]
      simp [addrs]

theorem allocate_from_builder_addrs {s s' : DeviceAllocator} {b b' : EndpointBuilder}
    {db : Bool} (h : s.allocate_from_builder b db = some (s', b')) :
    addrs s' = addrs s ∨ ∃ a, a ∉ addrs s ∧ addrs s' = addrs s ++ [a] := by
  rw [DeviceAllocator.allocate_from_builder] at h
  split at h
  · simp only [Option.bind_eq_bind, Option.bind_eq_some] at h
    obtain ⟨⟨s₁, i⟩, hpick, h⟩ := h
    obtain ⟨s₂, hfill, h⟩ := h
    have hfa : addrs s₂ = addrs s₁ := fillBuffers_addrs hfill
    have hse : addrs s' = addrs s₂ := by
      split at h
      · simp only [Option.bind_eq_some, Option.pure_def, Option.some_inj,
          Prod.mk.injEq] at h
        obtain ⟨ep, hget, hs2, _⟩ := h
        rw [addrs, ← hs2]
        rfl
      · simp only [Option.pure_def, Option.some_inj, Prod.mk.injEq] at h
        rw [addrs, ← h.1]
        rfl
    rw [hse, hfa]
    exact pickSlot_addrs hpick
  · exact Option.noConfusion h

theorem allocate_ep0_addrs {s s' : DeviceAllocator} {builder builder' : DeviceBuilder}
    (h : s.allocate_ep0_from_builfer builder = some (s', builder')) :
    0 ∉ addrs s ∧ addrs s' = addrs s ++ [0] := by
  rw [DeviceAllocator.allocate_ep0_from_builfer] at h
  by_cases hz : s.endpoints.any (fun ep => ep.address_index = 0) = true
  · rw [if_pos hz] at h
    simp at h
  · rw [if_neg hz] at h
    simp only [Option.bind_eq_bind, Option.bind_eq_some, Option.pure_def,
      Option.some_inj, Prod.mk.injEq] at h
    obtain ⟨⟨bd, s₁⟩, hbd, ⟨btx, s₂⟩, htx, ⟨brx, s₃⟩, hrx, hs', _⟩ := h
    have h1 : s₁.endpoints = s.endpoints := allocate_buffer_descriptor_endpoints hbd
    have h2 : s₂.endpoints = s₁.endpoints := allocate_tx_buffer_endpoints htx
    have h3 : s₃.endpoints = s₂.endpoints := allocate_rx_buffer_endpoints hrx
    constructor
    · intro hmem
      rw [addrs, List.mem_map] at hmem
      obtain ⟨ep, hep, heq⟩ := hmem
      simp only [Bool.not_eq_true, List.any_eq_false, decide_eq_false_iff_not] at hz
      exact hz ep hep heq
    · rw [← hs']
      show ((s₃.endpoints ++ _).map _) = _
      rw [List.map_append, h3, h2, h1]
      rfl

/-- States reachable from `DeviceAllocator::new` by successful
`allocate_from_builder` / `allocate_ep0_from_builfer` calls. -/
inductive Reachable : DeviceAllocator → Prop where
  | base : Reachable DeviceAllocator.new
  | step (s : DeviceAllocator) (b : EndpointBuilder) (db : Bool)
      (s' : DeviceAllocator) (b' : EndpointBuilder) :
      Reachable s → s.allocate_from_builder b db = some (s', b') → Reachable s'
  | ep0 (s : DeviceAllocator) (builder : DeviceBuilder)
      (s' : DeviceAllocator) (builder' : DeviceBuilder) :
      Reachable s → s.allocate_ep0_from_builfer builder = some (s', builder') →
      Reachable s'

theorem reachable_addrs_nodup {s : DeviceAllocator} (h : Reachable s) :
    (addrs s).Nodup := by
  induction h with
  | base => simp [addrs, DeviceAllocator.new]
  | step s b db s' b' _ hcall ih =>
    rcases allocate_from_builder_addrs hcall with heq | ⟨a, hfresh, heq⟩
    · rw [heq]; exact ih
    · rw [heq]
      simp [List.nodup_append, ih, hfresh]
  | ep0 s builder s' builder' _ hcall ih =>
    obtain ⟨hfresh, heq⟩ := allocate_ep0_addrs hcall
    rw [heq]
    simp [List.nodup_append, ih, hfresh]

theorem nodup_map_filter_le_one {α : Type} (f : α → Nat) {l : List α}
    (hnd : (l.map f).Nodup) (q : α → Bool) (a : Nat) :
    (l.filter (fun x => f x = a && q x)).length ≤ 1 := by
  induction l with
  | nil => simp
  | cons x rest ih =>
    simp only [List.map_cons, List.nodup_cons] at hnd
    obtain ⟨hx, hrest⟩ := hnd
    rw [List.filter_cons]
    by_cases hcond : (decide (f x = a) && q x) = true
    · rw [if_pos hcond]
      have hfx : f x = a := by
        simp only [Bool.and_eq_true, decide_eq_true_eq] at hcond
        exact hcond.1
      have hnil : rest.filter (fun y => f y = a && q y) = [] := by
        rw [List.filter_eq_nil_iff]
        intro y hy
        have hne : f y ≠ a := by
          intro he
          refine hx ?_
          have hxy : f x = f y := by rw [hfx, he]
          rw [hxy]
          exact List.mem_map_of_mem f hy
        simp [hne]
      simp [hnil]
    · rw [if_neg hcond]
      exact ih hrest

/-- C4: after every sequence of successful `allocate_from_builder` and
`allocate_ep0_from_builfer` calls, all slots carry pairwise-distinct hardware
address indices, and consequently for each address index the IN (tx) role
and the OUT (rx) role are each held by at most one slot. -/
theorem endpoint_addresses_unique (s : DeviceAllocator) (h : Reachable s) :
    (addrs s).Nodup ∧
    ∀ a : Nat,
      (s.endpoints.filter
        (fun ep => ep.address_index = a && ep.tx_enabled)).length ≤ 1 ∧
      (s.endpoints.filter
        (fun ep => ep.address_index = a && ep.rx_enabled)).length ≤ 1 := by
  have hnd := reachable_addrs_nodup h
  exact ⟨hnd, fun a =>
    ⟨nodup_map_filter_le_one _ hnd (fun ep => ep.tx_enabled) a,
     nodup_map_filter_le_one _ hnd (fun ep => ep.rx_enabled) a⟩⟩

def c4state1 : DeviceAllocator :=
  ((DeviceAllocator.new.allocate_ep0_from_builfer c5device).getD
    (DeviceAllocator.new, c5device)).1

def c4pair : DeviceAllocator × EndpointBuilder :=
  (c4state1.allocate_from_builder (mkEp Option.none .In .Bulk 8) false).getD
    (c4state1, mkEp Option.none .In .Bulk 8)

/-- C4 witness: after EP0 plus one auto-assigned bulk-IN endpoint, the
address indices are pairwise distinct. -/
theorem endpoint_addresses_unique_witness : (addrs c4pair.1).Nodup :=
  (endpoint_addresses_unique c4pair.1
    (Reachable.step c4state1 (mkEp Option.none .In .Bulk 8) false c4pair.1 c4pair.2
      (Reachable.ep0 DeviceAllocator.new c5device c4state1 c5device
        Reachable.base (by decide))
      (by decide))).1

/-! ## C9: `build` unconditionally interns `UsbString::Custom(42)` -/

/-- Whether a string reference is an externally-resolved (`Custom`) one. -/
def isCustom : UsbString → Bool
  | .custom _ => true
  | _ => false

theorem get?_mem_list {α : Type} {l : List α} {i : Nat} {x : α}
    (h : l.get? i = some x) : x ∈ l := by
  induction l generalizing i with
  | nil => simp at h
  | cons a rest ih =>
    cases i with
    | zero =>
      simp only [List.get?_cons_zero, Option.some_inj] at h
      subst h
      exact List.mem_cons_self a rest
    | succ j =>
      simp only [List.get?_cons_succ] at h
      exact List.mem_cons_of_mem a (ih h)

theorem get_index_custom_none {a : UsbStringAllocator}
    (ha : ∀ s ∈ a.strings, isCustom s = false) :
    a.get_index (UsbString.custom 42) = Option.none := by
  rw [UsbStringAllocator.get_index]
  match hfe : findEnum a.strings (fun x => x = UsbString.custom 42) with
  | Option.none => rfl
  | some (i, x) =>
    obtain ⟨hget, hp⟩ := findEnum_some hfe
    simp only [decide_eq_true_eq] at hp
    subst hp
    have := ha _ (get?_mem_list hget)
    simp [isCustom] at this

theorem alloc_no_custom {a : UsbStringAllocator} {v : UsbString}
    (ha : ∀ s ∈ a.strings, isCustom s = false) (hv : isCustom v = false) :
    ∀ s ∈ ((a.alloc v).2).strings, isCustom s = false := by
  rw [UsbStringAllocator.alloc]
  match hg : a.get_index v with
  | some i => exact ha
  | Option.none =>
    intro s hs
    simp only [List.mem_append, List.mem_singleton] at hs
    rcases hs with hs | hs
    · exact ha s hs
    · subst hs; exact hv

theorem foldl_alloc_no_custom :
    ∀ (il : List InterfaceBuilder) (a : UsbStringAllocator),
    (∀ s ∈ a.strings, isCustom s = false) →
    (∀ i ∈ il, isCustom i.descriptor.interface_string = false) →
    ∀ s ∈ (il.foldl (fun a i => (a.alloc i.descriptor.interface_string).2) a).strings,
      isCustom s = false := by
  intro il
  induction il with
  | nil => intro a ha _; exact ha
  | cons i rest ih =>
    intro a ha hil
    have hi := hil i (List.mem_cons_self i rest)
    have hrest : ∀ j ∈ rest, isCustom j.descriptor.interface_string = false :=
      fun j hj => hil j (List.mem_cons_of_mem i hj)
    exact ih _ (alloc_no_custom ha hi) hrest

theorem allocStrings_split (b : DeviceBuilder)
    (h1 : isCustom b.descriptor.manufacturer = false)
    (h2 : isCustom b.descriptor.product = false)
    (h3 : isCustom b.descriptor.serial_number = false)
    (h4 : isCustom b.configuration_desc.configuration_string = false)
    (h5 : ∀ i ∈ b.interfaces, isCustom i.descriptor.interface_string = false) :
    ∃ l, (b.allocStrings).strings = l ++ [UsbString.custom 42] ∧
      ∀ s ∈ l, isCustom s = false := by
  rw [DeviceBuilder.allocStrings]
  have h0 : ∀ s ∈ UsbStringAllocator.new.strings, isCustom s = false := by
    intro s hs
    simp only [UsbStringAllocator.new, List.mem_singleton] at hs
    subst hs; rfl
  have ha := foldl_alloc_no_custom b.interfaces _
    (alloc_no_custom (alloc_no_custom (alloc_no_custom (alloc_no_custom h0 h1) h2) h3) h4) h5
  refine ⟨_, ?_, ha⟩
  rw [UsbStringAllocator.alloc, get_index_custom_none ha]

theorem genStrings_custom :
    ∀ (l : List UsbString) (i : Nat) (sd sd' : List (Nat × List Nat))
      (cs' : List (Nat × Nat)),
    (∀ s ∈ l, isCustom s = false) →
    DeviceBuilder.genStrings i (l ++ [UsbString.custom 42]) sd [] = some (sd', cs') →
    cs' = [((i + l.length) % 256, 42)] := by
  intro l
  induction l with
  | nil =>
    intro i sd sd' cs' _ h
    simp only [List.nil_append, DeviceBuilder.genStrings] at h
    simp only [Option.some_inj, Prod.mk.injEq] at h
    rw [← h.2]
    rfl
  | cons s rest ih =>
    intro i sd sd' cs' hnc h
    have hs := hnc s (List.mem_cons_self s rest)
    have hrest : ∀ x ∈ rest, isCustom x = false :=
      fun x hx => hnc x (List.mem_cons_of_mem s hx)
    have harith : i + 1 + rest.length = i + (rest.length + 1) := by omega
    cases s with
    | custom id => simp [isCustom] at hs
    | none =>
      simp only [List.cons_append, DeviceBuilder.genStrings, Option.bind_eq_bind,
        Option.bind_eq_some] at h
      obtain ⟨bytes, _, h⟩ := h
      have := ih (i + 1) _ _ _ hrest h
      rw [this, List.length_cons, harith]
    | const str =>
      simp only [List.cons_append, DeviceBuilder.genStrings, Option.bind_eq_bind,
        Option.bind_eq_some] at h
      obtain ⟨bytes, _, h⟩ := h
      have := ih (i + 1) _ _ _ hrest h
      rw [this, List.length_cons, harith]

/-- Decomposition of a successful `DeviceBuilder::build`. -/
theorem build_elim {b : DeviceBuilder} {cfg : DeviceConfig} (h : b.build = some cfg) :
    b.interfaces ≠ [] ∧
    ∃ dd cd sd cs,
      DeviceBuilder.deviceBytes b b.allocStrings = some dd ∧
      DeviceBuilder.configBytes b b.allocStrings = some cd ∧
      DeviceBuilder.genStrings 0 (b.allocStrings).strings [] [] = some (sd, cs) ∧
      cfg = ⟨dd, cd, sd, cs, b.endpointList⟩ := by
  rw [DeviceBuilder.build] at h
  by_cases hne : b.interfaces = []
  · rw [if_pos hne] at h
    exact Option.noConfusion h
  · rw [if_neg hne] at h
    simp only [Option.bind_eq_bind, Option.bind_eq_some, Option.pure_def,
      Option.some_inj] at h
    obtain ⟨dd, hdd, cd, hcd, ⟨sd, cs⟩, hgen, hcfg⟩ := h
    exact ⟨hne, dd, cd, sd, cs, hdd, hcd, hgen, hcfg.symm⟩

/-- C9: for every device built through `DeviceBuilder::build` whose declared
strings are all `None`/`Const` (the only kinds the builder API can set),
`build` still interns the hard-coded `UsbString::Custom(42)`, so the
resulting `custom_strings` map contains exactly one entry, mapping a string
index to the custom id 42. -/
theorem build_custom_strings (b : DeviceBuilder) (cfg : DeviceConfig)
    (h1 : isCustom b.descriptor.manufacturer = false)
    (h2 : isCustom b.descriptor.product = false)
    (h3 : isCustom b.descriptor.serial_number = false)
    (h4 : isCustom b.configuration_desc.configuration_string = false)
    (h5 : ∀ i ∈ b.interfaces, isCustom i.descriptor.interface_string = false)
    (hbuild : b.build = some cfg) :
    ∃ k, cfg.custom_strings = [(k, 42)] := by
  obtain ⟨-, dd, cd, sd, cs, -, -, hgen, hcfg⟩ := build_elim hbuild
  obtain ⟨l, hsplit, hnc⟩ := allocStrings_split b h1 h2 h3 h4 h5
  rw [hsplit] at hgen
  have := genStrings_custom l 0 [] sd cs hnc hgen
  refine ⟨(0 + l.length) % 256, ?_⟩
  rw [hcfg]
  exact this

def sampleInterface : InterfaceBuilder :=
  ⟨⟨0, 0, 3, 0, 0, UsbString.none⟩, [], [⟨0x81, 3, 8, 10⟩]⟩

def sampleBuilder : DeviceBuilder :=
  ⟨c6desc, ⟨1, UsbString.none, 0x80, 50⟩, [sampleInterface]⟩

def sampleConfig : DeviceConfig := (sampleBuilder.build).getD default

/-- C9 witness: the sample one-interface device has exactly one custom-string
entry, mapped to id 42. -/
theorem build_custom_strings_witness :
    ∃ k, sampleConfig.custom_strings = [(k, 42)] :=
  build_custom_strings sampleBuilder sampleConfig rfl rfl rfl rfl
    (by decide) (by decide)

/-! ## C1: configuration-descriptor backpatching -/

/-- Bytes an interface contributes to the configuration blob: a 9-byte
interface descriptor, its custom descriptors (2-byte header + payload each),
and a 7-byte descriptor per endpoint. -/
def interfaceBlockSize (i : InterfaceBuilder) : Nat :=
  9 + (i.custom_descriptors.map (fun c => 2 + c.data.length)).sum + 7 * i.endpoints.length

/-- Total size of the configuration blob: the 9-byte configuration header
followed by every interface block. -/
def configTotalLength (il : List InterfaceBuilder) : Nat :=
  9 + (il.map interfaceBlockSize).sum

/-- Byte offset at which interface `k`'s descriptor starts. -/
def interfaceOffset (il : List InterfaceBuilder) (k : Nat) : Nat :=
  9 + ((il.take k).map interfaceBlockSize).sum

theorem interfaceBlockSize_ge (i : InterfaceBuilder) : 9 ≤ interfaceBlockSize i := by
  rw [interfaceBlockSize]
  omega

theorem configTotalLength_ge (il : List InterfaceBuilder) : 9 ≤ configTotalLength il := by
  rw [configTotalLength]
  omega

theorem configTotalLength_append (p : List InterfaceBuilder) (i : InterfaceBuilder) :
    configTotalLength (p ++ [i]) = configTotalLength p + interfaceBlockSize i := by
  rw [configTotalLength, configTotalLength, List.map_append, List.sum_append]
  simp
  omega

theorem interfaceOffset_append_le {p : List InterfaceBuilder} (i : InterfaceBuilder)
    {k : Nat} (hk : k ≤ p.length) :
    interfaceOffset (p ++ [i]) k = interfaceOffset p k := by
  rw [interfaceOffset, interfaceOffset, List.take_append_of_le_length hk]

theorem interfaceOffset_append_len (p : List InterfaceBuilder) (i : InterfaceBuilder) :
    interfaceOffset (p ++ [i]) p.length = configTotalLength p := by
  rw [interfaceOffset, List.take_append_of_le_length (le_refl _), List.take_length,
    configTotalLength]

theorem interfaceOffset_lt_total {p : List InterfaceBuilder} {k : Nat}
    {ifc : InterfaceBuilder} (h : p.get? k = some ifc) :
    interfaceOffset p k + 4 < configTotalLength p := by
  induction p generalizing k with
  | nil => simp at h
  | cons x rest ih =>
    cases k with
    | zero =>
      have hb := interfaceBlockSize_ge x
      rw [interfaceOffset, configTotalLength]
      simp only [List.take_zero, List.map_nil, List.sum_nil, List.map_cons, List.sum_cons]
      omega
    | succ j =>
      simp only [List.get?_cons_succ] at h
      have hrec := ih h
      rw [interfaceOffset, configTotalLength] at hrec ⊢
      simp only [List.take_succ_cons, List.map_cons, List.sum_cons]
      omega

/-- Writer-state invariant while the interface loop of `build` runs, after
the interfaces in `p` have been written: the configuration header sits at
offset 0, its placeholder length bytes are still 0, its interface-count byte
holds `p.length`, and each written interface's endpoint-count byte holds
that interface's endpoint count. -/
structure ConfInv (p : List InterfaceBuilder) (w : UsbDescriptorWriter) : Prop where
  hoff : w.configuration_offset = some 0
  hmark : w.num_interfaces_mark = some 4
  hlen : w.buf.length = configTotalLength p
  hb2 : w.buf.get? 2 = some 0
  hb3 : w.buf.get? 3 = some 0
  hb4 : w.buf.get? 4 = some (p.length % 256)
  heps : ∀ k ifc, p.get? k = some ifc →
    w.buf.get? (interfaceOffset p k + 4) = some (ifc.endpoints.length % 256)

theorem customs_fold_spec (cds : List UsbCustomDescriptor) :
    ∀ w : UsbDescriptorWriter,
    ∃ bytes : List Nat,
      (cds.foldl (fun w c => w.custom_descriptor c) w).buf = w.buf ++ bytes ∧
      bytes.length = (cds.map (fun c => 2 + c.data.length)).sum ∧
      (cds.foldl (fun w c => w.custom_descriptor c) w).configuration_offset =
        w.configuration_offset ∧
      (cds.foldl (fun w c => w.custom_descriptor c) w).num_interfaces_mark =
        w.num_interfaces_mark ∧
      (cds.foldl (fun w c => w.custom_descriptor c) w).num_endpoints_mark =
        w.num_endpoints_mark := by
  induction cds with
  | nil => intro w; exact ⟨[], by simp, by simp, rfl, rfl, rfl⟩
  | cons c rest ih =>
    intro w
    obtain ⟨bytes, hb, hl, h1, h2, h3⟩ := ih (w.custom_descriptor c)
    refine ⟨((c.data.length + 2) % 256 :: c.descriptor_type :: c.data) ++ bytes,
      ?_, ?_, ?_, ?_, ?_⟩
    · rw [List.foldl_cons, hb]
      show (w.buf ++ ((c.data.length + 2) % 256 :: c.descriptor_type :: c.data)) ++ bytes = _
      rw [List.append_assoc]
    · simp only [List.length_append, List.length_cons, List.map_cons, List.sum_cons, hl]
      omega
    · rw [List.foldl_cons, h1]; rfl
    · rw [List.foldl_cons, h2]; rfl
    · rw [List.foldl_cons, h3]; rfl

theorem writeEndpoints_spec :
    ∀ (es : List UsbEndpointDescriptor) (w w' : UsbDescriptorWriter) (m v : Nat),
    w.num_endpoints_mark = some m →
    m < w.buf.length →
    w.buf.get? m = some v →
    v < 256 →
    DeviceBuilder.writeEndpoints w es = some w' →
    w'.buf.length = w.buf.length + 7 * es.length ∧
    w'.configuration_offset = w.configuration_offset ∧
    w'.num_interfaces_mark = w.num_interfaces_mark ∧
    w'.buf.get? m = some ((v + es.length) % 256) ∧
    (∀ j, j < w.buf.length → j ≠ m → w'.buf.get? j = w.buf.get? j) := by
  intro es
  induction es with
  | nil =>
    intro w w' m v hm hlt hv hvlt h
    rw [DeviceBuilder.writeEndpoints] at h
    obtain rfl := Option.some_inj.mp h
    refine ⟨by simp, rfl, rfl, ?_, fun j _ _ => rfl⟩
    rw [hv, List.length_nil]
    congr 1
    omega
  | cons e rest ih =>
    intro w w' m v hm hlt hv hvlt h
    rw [DeviceBuilder.writeEndpoints] at h
    simp only [Option.bind_eq_bind, Option.bind_eq_some] at h
    obtain ⟨w₁, he, h⟩ := h
    rw [UsbDescriptorWriter.endpoint] at he
    simp only [hm, UsbDescriptorWriter.bumpByte, Option.bind_eq_bind,
      Option.bind_eq_some, Option.pure_def, Option.some_inj] at he
    obtain ⟨m', rfl, buf', hbump, hw₁⟩ := he
    simp only [hv, Option.some_inj] at hbump
    subst hbump
    -- hw₁ now equates w₁ with the written-out record
    have hw₁buf : w₁.buf = (w.buf.set m ((v + 1) % 256)) ++
        [7, 5, e.address, e.attributes,
         e.max_packet_size % 256, e.max_packet_size / 256 % 256, e.interval] := by
      rw [← hw₁]; rfl
    have hw₁off : w₁.configuration_offset = w.configuration_offset := by rw [← hw₁]; rfl
    have hw₁im : w₁.num_interfaces_mark = w.num_interfaces_mark := by rw [← hw₁]; rfl
    have hw₁em : w₁.num_endpoints_mark = some m := by rw [← hw₁]; rfl
    have hw₁len : w₁.buf.length = w.buf.length + 7 := by
      rw [hw₁buf, List.length_append, List.length_set]
      rfl
    have hw₁lt : m < w₁.buf.length := by omega
    have hw₁v : w₁.buf.get? m = some ((v + 1) % 256) := by
      rw [hw₁buf, List.get?_append (by rw [List.length_set]; exact hlt)]
      exact get?_set_at _ hlt
    obtain ⟨hlen', hoff', him', hv', hpres'⟩ :=
      ih w₁ w' m ((v + 1) % 256) hw₁em hw₁lt hw₁v (Nat.mod_lt _ (by omega)) h
    refine ⟨by rw [hlen', hw₁len, List.length_cons]; omega,
      by rw [hoff', hw₁off], by rw [him', hw₁im], ?_, ?_⟩
    · rw [hv']
      congr 1
      simp only [List.length_cons]
      omega
    · intro j hj hjm
      rw [hpres' j (by omega) hjm, hw₁buf,
        List.get?_append (by rw [List.length_set]; omega),
        List.get?_set_ne _ _ (fun hmj => hjm hmj.symm)]

theorem interface_spec {w w' : UsbDescriptorWriter} {idesc : UsbInterfaceDescriptor}
    {alloc : UsbStringAllocator} {v : Nat}
    (hmark : w.num_interfaces_mark = some 4)
    (h4 : w.buf.get? 4 = some v)
    (h : w.interface idesc alloc = some w') :
    ∃ istr,
      w'.buf = (w.buf.set 4 ((v + 1) % 256)) ++
        [9, 4, idesc.interface_number, idesc.alternate_setting, 0,
         idesc.interface_class, idesc.interface_sub_class, idesc.interface_protocol,
         istr] ∧
      w'.configuration_offset = w.configuration_offset ∧
      w'.num_interfaces_mark = w.num_interfaces_mark ∧
      w'.num_endpoints_mark = some (w.buf.length + 4) := by
  rw [UsbDescriptorWriter.interface] at h
  simp only [hmark, UsbDescriptorWriter.bumpByte, Option.bind_eq_bind,
    Option.bind_eq_some, Option.pure_def, Option.some_inj] at h
  obtain ⟨m', rfl, buf', hbump, istr, hstr, hw'⟩ := h
  simp only [h4, Option.some_inj] at hbump
  subst hbump
  refine ⟨istr, by rw [← hw']; rfl, by rw [← hw']; rfl, by rw [← hw', hmark]; rfl, ?_⟩
  rw [← hw']
  show some ((w.buf.set 4 ((v + 1) % 256)).length + 4) = _
  rw [List.length_set]

theorem configuration_new_spec {conf : UsbConfigurationDescriptor}
    {alloc : UsbStringAllocator} {w₀ : UsbDescriptorWriter}
    (h : UsbDescriptorWriter.new.configuration conf alloc = some w₀) :
    ConfInv [] w₀ := by
  rw [UsbDescriptorWriter.configuration] at h
  have hupd : UsbDescriptorWriter.new.update_configuration_length =
      some UsbDescriptorWriter.new := rfl
  simp only [hupd, Option.bind_eq_bind, Option.bind_eq_some, Option.pure_def,
    Option.some_inj] at h
  obtain ⟨w₁, rfl, istr, hstr, hw₀⟩ := h
  subst hw₀
  exact ⟨rfl, rfl, rfl, rfl, rfl, rfl, fun k ifc hk => by simp at hk⟩

theorem writeInterface_step {p : List InterfaceBuilder} {w w' : UsbDescriptorWriter}
    {i : InterfaceBuilder} {alloc : UsbStringAllocator}
    (hinv : ConfInv p w) (h : DeviceBuilder.writeInterface w i alloc = some w') :
    ConfInv (p ++ [i]) w' := by
  obtain ⟨hoff, hmark, hlen, hb2, hb3, hb4, heps⟩ := hinv
  have hlen9 : 9 ≤ w.buf.length := by rw [hlen]; exact configTotalLength_ge p
  rw [DeviceBuilder.writeInterface] at h
  simp only [Option.bind_eq_bind, Option.bind_eq_some] at h
  obtain ⟨w₁, hif, h⟩ := h
  obtain ⟨istr, hbuf1, hoff1, hmark1, hepm1⟩ := interface_spec hmark hb4 hif
  obtain ⟨cb, hbuf2, hcbl, hoff2, hmark2, hepm2⟩ := customs_fold_spec i.custom_descriptors w₁
  have hw₁len : w₁.buf.length = w.buf.length + 9 := by
    rw [hbuf1, List.length_append, List.length_set]
    rfl
  set w₂ := i.custom_descriptors.foldl (fun w c => w.custom_descriptor c) w₁ with hw₂def
  have hw₂len : w₂.buf.length = w.buf.length + 9 + cb.length := by
    rw [hbuf2, List.length_append, hw₁len]
  -- the endpoint-count mark of the interface just written
  have hmlt : w.buf.length + 4 < w₂.buf.length := by omega
  have hem₂ : w₂.num_endpoints_mark = some (w.buf.length + 4) := by
    rw [hepm2, hepm1]
  have hv₂ : w₂.buf.get? (w.buf.length + 4) = some 0 := by
    rw [hbuf2, List.get?_append (by omega), hbuf1,
      List.get?_append_right (by rw [List.length_set]; omega)]
    rw [List.length_set]
    have : w.buf.length + 4 - w.buf.length = 4 := by omega
    rw [this]
    rfl
  obtain ⟨hlen', hoff', him', hv', hpres'⟩ :=
    writeEndpoints_spec i.endpoints w₂ w' (w.buf.length + 4) 0 hem₂ hmlt hv₂
      (by omega) h
  -- a byte below the configuration header area is carried through unchanged
  have hcarry : ∀ j, j < w.buf.length → j ≠ 4 →
      w'.buf.get? j = w.buf.get? j := by
    intro j hj hj4
    rw [hpres' j (by omega) (by omega), hbuf2, List.get?_append (by omega),
      hbuf1, List.get?_append (by rw [List.length_set]; omega),
      List.get?_set_ne _ _ (fun hc => hj4 hc.symm)]
  constructor
  · rw [hoff', hoff2, hoff1, hoff]
  · rw [him', hmark2, hmark1, hmark]
  · rw [hlen', hw₂len, hcbl, configTotalLength_append, ← hlen, interfaceBlockSize]
    omega
  · rw [hcarry 2 (by omega) (by omega)]
    exact hb2
  · rw [hcarry 3 (by omega) (by omega)]
    exact hb3
  · have h44 : w'.buf.get? 4 = (w.buf.set 4 ((p.length % 256 + 1) % 256)).get? 4 := by
      rw [hpres' 4 (by omega) (by omega), hbuf2, List.get?_append (by omega),
        hbuf1, List.get?_append (by rw [List.length_set]; omega)]
    rw [h44, get?_set_at _ (by omega)]
    congr 1
    rw [List.length_append, List.length_singleton]
    omega
  · intro k ifc hk
    by_cases hklt : k < p.length
    · rw [List.get?_append hklt] at hk
      have hoffk := interfaceOffset_lt_total hk
      rw [interfaceOffset_append_le i (by omega)]
      rw [hcarry (interfaceOffset p k + 4) (by omega) (by
        have h9 : 9 ≤ interfaceOffset p k := by rw [interfaceOffset]; omega
        omega)]
      exact heps k ifc hk
    · by_cases hkeq : k = p.length
      · subst hkeq
        rw [List.get?_concat_length] at hk
        obtain rfl := Option.some_inj.mp hk
        rw [interfaceOffset_append_len, ← hlen, hv']
        simp
      · exfalso
        rw [List.get?_eq_none.mpr (by
          simp only [List.length_append, List.length_singleton]
          omega)] at hk
        exact Option.noConfusion hk

theorem writeInterfaces_inv :
    ∀ (rest p : List InterfaceBuilder) (w w' : UsbDescriptorWriter)
      (alloc : UsbStringAllocator),
    ConfInv p w → DeviceBuilder.writeInterfaces alloc w rest = some w' →
    ConfInv (p ++ rest) w' := by
  intro rest
  induction rest with
  | nil =>
    intro p w w' alloc hinv h
    rw [DeviceBuilder.writeInterfaces] at h
    obtain rfl := Option.some_inj.mp h
    rw [List.append_nil]
    exact hinv
  | cons i rest ih =>
    intro p w w' alloc hinv h
    rw [DeviceBuilder.writeInterfaces] at h
    simp only [Option.bind_eq_bind, Option.bind_eq_some] at h
    obtain ⟨w₁, hstep, h⟩ := h
    have hinv₁ := writeInterface_step hinv hstep
    have := ih (p ++ [i]) w₁ w' alloc hinv₁ h
    rw [List.append_assoc] at this
    exact this

theorem finish_spec {p : List InterfaceBuilder} {w : UsbDescriptorWriter}
    {bytes : List Nat} (hinv : ConfInv p w) (h : w.finish = some bytes) :
    bytes.length = configTotalLength p ∧
    bytes.get? 2 = some (configTotalLength p % 65536 % 256) ∧
    bytes.get? 3 = some (configTotalLength p % 65536 / 256) ∧
    bytes.get? 4 = some (p.length % 256) ∧
    (∀ k ifc, p.get? k = some ifc →
      bytes.get? (interfaceOffset p k + 4) = some (ifc.endpoints.length % 256)) := by
  obtain ⟨hoff, hmark, hlen, hb2, hb3, hb4, heps⟩ := hinv
  have hlen9 : 9 ≤ w.buf.length := by rw [hlen]; exact configTotalLength_ge p
  rw [UsbDescriptorWriter.finish] at h
  have hupd : w.update_configuration_length = some { w with
      buf := (w.buf.set (0 + 2) ((w.buf.length - 0) % 65536 % 256)).set (0 + 3)
        ((w.buf.length - 0) % 65536 / 256) } := by
    rw [UsbDescriptorWriter.update_configuration_length]
    simp only [hoff]
    rw [if_pos (by omega : 0 + 4 ≤ w.buf.length)]
  rw [hupd] at h
  simp only [Option.bind_eq_bind, Option.some_bind, Option.pure_def,
    Option.some_inj] at h
  subst h
  have hL : (w.buf.length - 0) % 65536 = configTotalLength p % 65536 := by
    rw [Nat.sub_zero, hlen]
  constructor
  · simp [hlen]
  constructor
  · rw [List.get?_set_ne _ _ (by omega : (0 : Nat) + 3 ≠ 2),
      get?_set_at _ (by omega), hL]
  constructor
  · rw [get?_set_at _ (by rw [List.length_set]; omega), hL]
  constructor
  · rw [List.get?_set_ne _ _ (by omega : (0 : Nat) + 3 ≠ 4),
      List.get?_set_ne _ _ (by omega : (0 : Nat) + 2 ≠ 4)]
    exact hb4
  · intro k ifc hk
    have h9 : 9 ≤ interfaceOffset p k := by rw [interfaceOffset]; omega
    rw [List.get?_set_ne _ _ (by omega),
      List.get?_set_ne _ _ (by omega)]
    exact heps k ifc hk

/-- C1: for every device model built through `DeviceBuilder::build` (with
byte-representable counts: total length < 2^16, interface and per-interface
endpoint counts < 2^8), the finished configuration-descriptor buffer has the
16-bit little-endian `wTotalLength` at offsets 2–3 equal to the exact byte
length of the whole buffer (everything from the configuration header to the
end), the `bNumInterfaces` byte at offset 4 equal to the number of
interfaces written, and for each interface the `bNumEndpoints` byte at
offset 4 within that interface descriptor equal to the number of endpoint
descriptors written for it. -/
theorem configuration_descriptor_backpatch (b : DeviceBuilder) (cfg : DeviceConfig)
    (hbuild : b.build = some cfg)
    (hlen : configTotalLength b.interfaces < 65536)
    (hic : b.interfaces.length < 256)
    (hec : ∀ i ∈ b.interfaces, i.endpoints.length < 256) :
    cfg.configuration_descriptor.length = configTotalLength b.interfaces ∧
    cfg.configuration_descriptor.get? 2 = some (configTotalLength b.interfaces % 256) ∧
    cfg.configuration_descriptor.get? 3 = some (configTotalLength b.interfaces / 256) ∧
    cfg.configuration_descriptor.get? 4 = some b.interfaces.length ∧
    (∀ k ifc, b.interfaces.get? k = some ifc →
      cfg.configuration_descriptor.get? (interfaceOffset b.interfaces k + 4) =
        some ifc.endpoints.length) := by
  obtain ⟨-, dd, cd, sd, cs, -, hcd, -, hcfg⟩ := build_elim hbuild
  rw [DeviceBuilder.configBytes] at hcd
  simp only [Option.bind_eq_bind, Option.bind_eq_some] at hcd
  obtain ⟨w₀, hconf, w₁, hloop, hfin⟩ := hcd
  have hinv₀ := configuration_new_spec hconf
  have hinv₁ := writeInterfaces_inv b.interfaces [] w₀ w₁ _ hinv₀ hloop
  rw [List.nil_append] at hinv₁
  obtain ⟨hl, h2, h3, h4, heps⟩ := finish_spec hinv₁ hfin
  have hmod : configTotalLength b.interfaces % 65536 = configTotalLength b.interfaces :=
    Nat.mod_eq_of_lt hlen
  subst hcfg
  refine ⟨hl, ?_, ?_, ?_, ?_⟩
  · rw [h2, hmod]
  · rw [h3, hmod]
  · rw [h4, Nat.mod_eq_of_lt hic]
  · intro k ifc hk
    rw [heps k ifc hk, Nat.mod_eq_of_lt (hec ifc (get?_mem_list hk))]

/-- C1 witness: the sample one-interface device's configuration descriptor
(25 bytes) carries the right backpatched length and counters. -/
theorem configuration_descriptor_backpatch_witness :
    sampleConfig.configuration_descriptor.length =
      configTotalLength sampleBuilder.interfaces ∧
    sampleConfig.configuration_descriptor.get? 2 =
      some (configTotalLength sampleBuilder.interfaces % 256) ∧
    sampleConfig.configuration_descriptor.get? 4 =
      some sampleBuilder.interfaces.length := by
  have h := configuration_descriptor_backpatch sampleBuilder sampleConfig
    (by decide) (by decide) (by decide) (by decide)
  exact ⟨h.1, h.2.1, h.2.2.2.1⟩

end UsbGen
